import Mathlib

/-!
Verification of the Formality kernel (JavaScript bundle in src/unnamed/part_000)
against its natural-language specification.

The development shallowly embeds the kernel's term algebra, substitution,
erasure, the HOAS reducer (defunctionalized, as suggested by the spec's design
notes: closures become explicit (body, environment) frames), the equality /
unification engine, the affinity analysis and the bidirectional type checker.

Modelling conventions, used throughout:
- JavaScript numbers are IEEE doubles.  Every numeric value manipulated by the
  claims under verification is an integer on which double arithmetic is exact,
  so the model uses `Int` for the `numb` payload and for de-Bruijn indices
  (indices can go negative through the kernel's own `shift` with negative
  increments).  Where JS double arithmetic can leave the integers (`./.`,
  `.**.` with negative exponent), the model keeps an integral approximation;
  no theorem below evaluates those operators.
- JavaScript functions that can diverge are given a fuel parameter that is
  consumed once per recursive call; `Res.out` reports fuel exhaustion (a
  modelling artifact, distinct from a thrown JS exception, which is `Res.err`).
- The structural-hash `memo` field (slot 2 of each JS term tuple) is modelled
  by the function `hash`; the kernel only ever compares hashes of terms that
  were built with the `MEMO` flag on, so a total function is faithful.
- Source locations (slot 3) and console output are dropped: they never affect
  control flow of the functions under study.
-/

namespace Formality

/-- Terms of Formality-Core, mirroring the constructors `Var..Ref` of the
source (src/unnamed/part_000, lines 250-301).  `numb` and `index` are `Int`
(see the modelling conventions above).  `Lam.bind` is nullable in the source,
hence `Option Term`. -/
inductive Term where
  | Var (index : Int)
  | Typ
  | All (name : String) (bind : Term) (body : Term) (eras : Bool)
  | Lam (name : String) (bind : Option Term) (body : Term) (eras : Bool)
  | App (func : Term) (argm : Term) (eras : Bool)
  | Slf (name : String) (type : Term)
  | New (type : Term) (expr : Term)
  | Use (expr : Term)
  | Num
  | Val (numb : Int)
  | Op1 (func : String) (num0 : Term) (num1 : Term)
  | Op2 (func : String) (num0 : Term) (num1 : Term)
  | Ite (cond : Term) (if_t : Term) (if_f : Term)
  | Ann (type : Term) (expr : Term) (done : Bool)
  | Log (msge : Term) (expr : Term)
  | Hol (name : String)
  | Ref (name : String) (eras : Bool)

/-- Structural hash: the `memo` string computed by each constructor in the
source (lines 250-301).  Alpha-stable because binder names are not included. -/
def hash : Term → String
  | .Var i => "^" ++ toString i
  | .Typ => "ty"
  | .All _ bind body eras => "al" ++ (if eras then "~" else "") ++ hash bind ++ hash body
  | .Lam _ _ body eras => "lm" ++ (if eras then "~" else "") ++ hash body
  | .App func argm eras => "ap" ++ (if eras then "~" else "") ++ hash func ++ hash argm
  | .Slf _ type => "sf" ++ hash type
  | .New _ expr => hash expr
  | .Use expr => hash expr
  | .Num => "wd"
  | .Val n => "[" ++ toString n ++ "]"
  | .Op1 func num0 num1 => "o1" ++ func ++ hash num0 ++ hash num1
  | .Op2 func num0 num1 => "o2" ++ func ++ hash num0 ++ hash num1
  | .Ite cond if_t if_f => "ie" ++ hash cond ++ hash if_t ++ hash if_f
  | .Ann _ expr _ => hash expr
  | .Log _ expr => hash expr
  | .Hol name => "\x7b?" ++ name ++ "?\x7d"
  | .Ref name _ => "\x7b" ++ name ++ "\x7d"

/-- Shift (source lines 307-350): every `Var i` with `i ≥ depth` is moved by
`inc`; recursion under binders raises the cutoff.  A null `Lam.bind` stays
null (the source's `shift(null) = null`). -/
def shift (t : Term) (inc depth : Int) : Term :=
  match t with
  | .Var i => .Var (if i < depth then i else i + inc)
  | .Typ => .Typ
  | .All name bind body eras => .All name (shift bind inc depth) (shift body inc (depth + 1)) eras
  | .Lam name none body eras => .Lam name none (shift body inc (depth + 1)) eras
  | .Lam name (some b) body eras =>
      .Lam name (some (shift b inc depth)) (shift body inc (depth + 1)) eras
  | .App func argm eras => .App (shift func inc depth) (shift argm inc depth) eras
  | .Num => .Num
  | .Val n => .Val n
  | .Op1 func num0 num1 => .Op1 func (shift num0 inc depth) (shift num1 inc depth)
  | .Op2 func num0 num1 => .Op2 func (shift num0 inc depth) (shift num1 inc depth)
  | .Ite cond if_t if_f => .Ite (shift cond inc depth) (shift if_t inc depth) (shift if_f inc depth)
  | .Slf name type => .Slf name (shift type inc (depth + 1))
  | .New type expr => .New (shift type inc depth) (shift expr inc depth)
  | .Use expr => .Use (shift expr inc depth)
  | .Ann type expr done => .Ann (shift type inc depth) (shift expr inc depth) done
  | .Log msge expr => .Log (shift msge inc depth) (shift expr inc depth)
  | .Hol name => .Hol name
  | .Ref name eras => .Ref name eras

/-- Substitution (source lines 352-397): `Var depth` becomes `val`, larger
indices are decremented; the substituted value is shifted under binders. -/
def subst (t : Term) (val : Term) (depth : Int) : Term :=
  match t with
  | .Var i => if depth = i then val else .Var (i - (if i > depth then 1 else 0))
  | .Typ => .Typ
  | .All name bind body eras =>
      .All name (subst bind val depth) (subst body (shift val 1 0) (depth + 1)) eras
  | .Lam name none body eras => .Lam name none (subst body (shift val 1 0) (depth + 1)) eras
  | .Lam name (some b) body eras =>
      .Lam name (some (subst b val depth)) (subst body (shift val 1 0) (depth + 1)) eras
  | .App func argm eras => .App (subst func val depth) (subst argm val depth) eras
  | .Num => .Num
  | .Val n => .Val n
  | .Op1 func num0 num1 => .Op1 func (subst num0 val depth) (subst num1 val depth)
  | .Op2 func num0 num1 => .Op2 func (subst num0 val depth) (subst num1 val depth)
  | .Ite cond if_t if_f => .Ite (subst cond val depth) (subst if_t val depth) (subst if_f val depth)
  | .Slf name type => .Slf name (subst type (shift val 1 0) (depth + 1))
  | .New type expr => .New (subst type val depth) (subst expr val depth)
  | .Use expr => .Use (subst expr val depth)
  | .Ann type expr done => .Ann (subst type val depth) (subst expr val depth) done
  | .Log msge expr => .Log (subst msge val depth) (subst expr val depth)
  | .Hol name => .Hol name
  | .Ref name eras => .Ref name eras

/-- Size measure used to justify (and fuel) the recursion of `erase`, whose
erased-lambda case recurses on a substituted body. -/
def sizeT : Term → Nat
  | .Var _ => 1
  | .Typ => 1
  | .All _ bind body _ => 1 + sizeT bind + sizeT body
  | .Lam _ none body _ => 1 + sizeT body
  | .Lam _ (some b) body _ => 1 + sizeT b + sizeT body
  | .App func argm _ => 1 + sizeT func + sizeT argm
  | .Slf _ type => 1 + sizeT type
  | .New type expr => 1 + sizeT type + sizeT expr
  | .Use expr => 1 + sizeT expr
  | .Num => 1
  | .Val _ => 1
  | .Op1 _ num0 num1 => 1 + sizeT num0 + sizeT num1
  | .Op2 _ num0 num1 => 1 + sizeT num0 + sizeT num1
  | .Ite cond if_t if_f => 1 + sizeT cond + sizeT if_t + sizeT if_f
  | .Ann type expr _ => 1 + sizeT type + sizeT expr
  | .Log msge expr => 1 + sizeT msge + sizeT expr
  | .Hol _ => 1
  | .Ref _ _ => 1

theorem sizeT_pos (t : Term) : 1 ≤ sizeT t := by
  cases t with
  | Lam name bind body eras => cases bind <;> simp [sizeT] <;> omega
  | _ => simp [sizeT] <;> omega

/-- Substituting a hole (a size-1 leaf, and a fixed point of `shift`) for a
variable does not change the size of a term. -/
theorem sizeT_subst_hol (s : String) : ∀ (t : Term) (d : Int),
    sizeT (subst t (.Hol s) d) = sizeT t
  | .Var i, d => by simp only [subst]; split <;> simp [sizeT]
  | .Typ, _ => rfl
  | .All n b c e, d => by
      simp only [subst, shift, sizeT]
      rw [sizeT_subst_hol s b d, sizeT_subst_hol s c (d + 1)]
  | .Lam n none c e, d => by
      simp only [subst, shift, sizeT]
      rw [sizeT_subst_hol s c (d + 1)]
  | .Lam n (some b) c e, d => by
      simp only [subst, shift, sizeT]
      rw [sizeT_subst_hol s b d, sizeT_subst_hol s c (d + 1)]
  | .App f a e, d => by
      simp only [subst, sizeT]; rw [sizeT_subst_hol s f d, sizeT_subst_hol s a d]
  | .Slf n t, d => by
      simp only [subst, shift, sizeT]; rw [sizeT_subst_hol s t (d + 1)]
  | .New t e, d => by
      simp only [subst, sizeT]; rw [sizeT_subst_hol s t d, sizeT_subst_hol s e d]
  | .Use e, d => by simp only [subst, sizeT]; rw [sizeT_subst_hol s e d]
  | .Num, _ => rfl
  | .Val _, _ => rfl
  | .Op1 f a b, d => by
      simp only [subst, sizeT]; rw [sizeT_subst_hol s a d, sizeT_subst_hol s b d]
  | .Op2 f a b, d => by
      simp only [subst, sizeT]; rw [sizeT_subst_hol s a d, sizeT_subst_hol s b d]
  | .Ite c t f, d => by
      simp only [subst, sizeT]
      rw [sizeT_subst_hol s c d, sizeT_subst_hol s t d, sizeT_subst_hol s f d]
  | .Ann t e k, d => by
      simp only [subst, sizeT]; rw [sizeT_subst_hol s t d, sizeT_subst_hol s e d]
  | .Log m e, d => by
      simp only [subst, sizeT]; rw [sizeT_subst_hol s m d, sizeT_subst_hol s e d]
  | .Hol _, _ => rfl
  | .Ref _ _, _ => rfl

/-- Fueled body of `erase` (source lines 683-725).  The fuel is consumed once
per recursive call; `erase` below supplies `sizeT t`, which always suffices
(`eraseGo_congr`), so the wrapper computes the source's total function while
remaining evaluable by the kernel. -/
def eraseGo : Nat → Term → Term
  | 0, t => t
  | fuel + 1, t =>
    match t with
    | .Var i => .Var i
    | .Typ => .Typ
    | .All name bind body eras => .All name (eraseGo fuel bind) (eraseGo fuel body) eras
    | .Lam _ _ body true => eraseGo fuel (subst body (.Hol "<erased>") 0)
    | .Lam name _ body false => .Lam name none (eraseGo fuel body) false
    | .App func _ true => eraseGo fuel func
    | .App func argm false => .App (eraseGo fuel func) (eraseGo fuel argm) false
    | .Num => .Num
    | .Val n => .Val n
    | .Op1 func num0 num1 => .Op1 func (eraseGo fuel num0) (eraseGo fuel num1)
    | .Op2 func num0 num1 => .Op2 func (eraseGo fuel num0) (eraseGo fuel num1)
    | .Ite cond if_t if_f => .Ite (eraseGo fuel cond) (eraseGo fuel if_t) (eraseGo fuel if_f)
    | .Slf name type => .Slf name (eraseGo fuel type)
    | .New _ expr => eraseGo fuel expr
    | .Use expr => eraseGo fuel expr
    | .Ann _ expr _ => eraseGo fuel expr
    | .Log msge expr => .Log (eraseGo fuel msge) (eraseGo fuel expr)
    | .Hol name => .Hol name
    | .Ref name _ => .Ref name true

/-- Erasure (source lines 683-725): erased lambdas are replaced by their body
with the bound variable substituted by the sentinel hole, erased applications
by their function, `New`/`Use`/`Ann` by their expression, and references are
marked erased. -/
def erase (t : Term) : Term := eraseGo (sizeT t) t

/-- Any fuel of at least `sizeT t` computes the same erasure. -/
theorem eraseGo_congr : ∀ (n m : Nat) (t : Term), sizeT t ≤ n → sizeT t ≤ m →
    eraseGo n t = eraseGo m t := by
  intro n
  induction n using Nat.strong_induction_on with
  | _ n ih =>
  intro m t h1 h2
  have hp := sizeT_pos t
  cases n with
  | zero => omega
  | succ n =>
  cases m with
  | zero => omega
  | succ m =>
  have hn : n < n + 1 := Nat.lt_succ_self n
  cases t with
  | Var i => rfl
  | Typ => rfl
  | Num => rfl
  | Val k => rfl
  | Hol s => rfl
  | Ref s e => rfl
  | All name bind body eras =>
      simp only [sizeT] at h1 h2
      simp only [eraseGo]
      rw [ih n hn m bind (by omega) (by omega), ih n hn m body (by omega) (by omega)]
  | Lam name bind body eras =>
      have hb : sizeT body + 1 ≤ sizeT (Term.Lam name bind body eras) := by
        cases bind <;> simp [sizeT] <;> omega
      cases eras with
      | true =>
          simp only [eraseGo]
          exact ih n hn m _ (by rw [sizeT_subst_hol]; omega) (by rw [sizeT_subst_hol]; omega)
      | false =>
          simp only [eraseGo]
          rw [ih n hn m body (by omega) (by omega)]
  | App func argm eras =>
      simp only [sizeT] at h1 h2
      cases eras with
      | true =>
          simp only [eraseGo]
          exact ih n hn m func (by omega) (by omega)
      | false =>
          simp only [eraseGo]
          rw [ih n hn m func (by omega) (by omega), ih n hn m argm (by omega) (by omega)]
  | Slf name type =>
      simp only [sizeT] at h1 h2
      simp only [eraseGo]
      rw [ih n hn m type (by omega) (by omega)]
  | New type expr =>
      simp only [sizeT] at h1 h2
      simp only [eraseGo]
      exact ih n hn m expr (by omega) (by omega)
  | Use expr =>
      simp only [sizeT] at h1 h2
      simp only [eraseGo]
      exact ih n hn m expr (by omega) (by omega)
  | Op1 func num0 num1 =>
      simp only [sizeT] at h1 h2
      simp only [eraseGo]
      rw [ih n hn m num0 (by omega) (by omega), ih n hn m num1 (by omega) (by omega)]
  | Op2 func num0 num1 =>
      simp only [sizeT] at h1 h2
      simp only [eraseGo]
      rw [ih n hn m num0 (by omega) (by omega), ih n hn m num1 (by omega) (by omega)]
  | Ite cond if_t if_f =>
      simp only [sizeT] at h1 h2
      simp only [eraseGo]
      rw [ih n hn m cond (by omega) (by omega), ih n hn m if_t (by omega) (by omega),
          ih n hn m if_f (by omega) (by omega)]
  | Ann type expr done =>
      simp only [sizeT] at h1 h2
      simp only [eraseGo]
      exact ih n hn m expr (by omega) (by omega)
  | Log msge expr =>
      simp only [sizeT] at h1 h2
      simp only [eraseGo]
      rw [ih n hn m msge (by omega) (by omega), ih n hn m expr (by omega) (by omega)]

/-- Erasure never grows a term. -/
theorem sizeT_eraseGo_le : ∀ (n : Nat) (t : Term), sizeT (eraseGo n t) ≤ sizeT t := by
  intro n
  induction n with
  | zero => intro t; exact le_refl _
  | succ n ih =>
      intro t
      cases t with
      | Var i => simp [eraseGo]
      | Typ => simp [eraseGo]
      | Num => simp [eraseGo]
      | Val k => simp [eraseGo]
      | Hol s => simp [eraseGo]
      | Ref s e => simp [eraseGo, sizeT]
      | All name bind body eras =>
          simp only [eraseGo, sizeT]
          have := ih bind; have := ih body; omega
      | Lam name bind body eras =>
          have hb : sizeT body + 1 ≤ sizeT (Term.Lam name bind body eras) := by
            cases bind <;> simp [sizeT] <;> omega
          cases eras with
          | true =>
              simp only [eraseGo]
              have h := ih (subst body (.Hol "<erased>") 0)
              rw [sizeT_subst_hol] at h
              omega
          | false =>
              simp only [eraseGo, sizeT]
              have := ih body
              omega
      | App func argm eras =>
          cases eras with
          | true =>
              simp only [eraseGo]
              have := ih func; simp only [sizeT]; omega
          | false =>
              simp only [eraseGo, sizeT]
              have := ih func; have := ih argm; omega
      | Slf name type =>
          simp only [eraseGo, sizeT]; have := ih type; omega
      | New type expr =>
          simp only [eraseGo, sizeT]
          have := ih expr; have := sizeT_pos type; omega
      | Use expr =>
          simp only [eraseGo, sizeT]; have := ih expr; omega
      | Op1 func num0 num1 =>
          simp only [eraseGo, sizeT]
          have := ih num0; have := ih num1; omega
      | Op2 func num0 num1 =>
          simp only [eraseGo, sizeT]
          have := ih num0; have := ih num1; omega
      | Ite cond if_t if_f =>
          simp only [eraseGo, sizeT]
          have := ih cond; have := ih if_t; have := ih if_f; omega
      | Ann type expr done =>
          simp only [eraseGo, sizeT]
          have := ih expr; have := sizeT_pos type; omega
      | Log msge expr =>
          simp only [eraseGo, sizeT]
          have := ih msge; have := ih expr; omega

/-- With sufficient fuel, erasure is idempotent at a fixed fuel. -/
theorem eraseGo_idem : ∀ (n : Nat) (t : Term), sizeT t ≤ n →
    eraseGo n (eraseGo n t) = eraseGo n t := by
  intro n
  induction n using Nat.strong_induction_on with
  | _ n ih =>
  intro t h1
  have hp := sizeT_pos t
  cases n with
  | zero => omega
  | succ n =>
  have hn : n < n + 1 := Nat.lt_succ_self n
  cases t with
  | Var i => rfl
  | Typ => rfl
  | Num => rfl
  | Val k => rfl
  | Hol s => rfl
  | Ref s e => rfl
  | All name bind body eras =>
      simp only [sizeT] at h1
      simp only [eraseGo]
      rw [ih n hn bind (by omega), ih n hn body (by omega)]
  | Lam name bind body eras =>
      have hb : sizeT body + 1 ≤ sizeT (Term.Lam name bind body eras) := by
        cases bind <;> simp [sizeT] <;> omega
      cases eras with
      | true =>
          have hs : sizeT (subst body (.Hol "<erased>") 0) ≤ n := by
            rw [sizeT_subst_hol]; omega
          have e1 : eraseGo (n + 1) (Term.Lam name bind body true) =
              eraseGo n (subst body (.Hol "<erased>") 0) := rfl
          rw [e1, eraseGo_congr (n + 1) n _ (le_trans (sizeT_eraseGo_le n _) (by omega))
            (le_trans (sizeT_eraseGo_le n _) hs)]
          exact ih n hn _ hs
      | false =>
          simp only [eraseGo]
          rw [ih n hn body (by omega)]
  | App func argm eras =>
      simp only [sizeT] at h1
      cases eras with
      | true =>
          have hs : sizeT func ≤ n := by omega
          have e1 : eraseGo (n + 1) (Term.App func argm true) = eraseGo n func := rfl
          rw [e1, eraseGo_congr (n + 1) n _ (le_trans (sizeT_eraseGo_le n _) (by omega))
            (le_trans (sizeT_eraseGo_le n _) hs)]
          exact ih n hn _ hs
      | false =>
          simp only [eraseGo]
          rw [ih n hn func (by omega), ih n hn argm (by omega)]
  | Slf name type =>
      simp only [sizeT] at h1
      simp only [eraseGo]
      rw [ih n hn type (by omega)]
  | New type expr =>
      simp only [sizeT] at h1
      have hs : sizeT expr ≤ n := by have := sizeT_pos type; omega
      have e1 : eraseGo (n + 1) (Term.New type expr) = eraseGo n expr := rfl
      rw [e1, eraseGo_congr (n + 1) n _ (le_trans (sizeT_eraseGo_le n _) (by omega))
        (le_trans (sizeT_eraseGo_le n _) hs)]
      exact ih n hn _ hs
  | Use expr =>
      simp only [sizeT] at h1
      have hs : sizeT expr ≤ n := by omega
      have e1 : eraseGo (n + 1) (Term.Use expr) = eraseGo n expr := rfl
      rw [e1, eraseGo_congr (n + 1) n _ (le_trans (sizeT_eraseGo_le n _) (by omega))
        (le_trans (sizeT_eraseGo_le n _) hs)]
      exact ih n hn _ hs
  | Op1 func num0 num1 =>
      simp only [sizeT] at h1
      simp only [eraseGo]
      rw [ih n hn num0 (by omega), ih n hn num1 (by omega)]
  | Op2 func num0 num1 =>
      simp only [sizeT] at h1
      simp only [eraseGo]
      rw [ih n hn num0 (by omega), ih n hn num1 (by omega)]
  | Ite cond if_t if_f =>
      simp only [sizeT] at h1
      simp only [eraseGo]
      rw [ih n hn cond (by omega), ih n hn if_t (by omega), ih n hn if_f (by omega)]
  | Ann type expr done =>
      simp only [sizeT] at h1
      have hs : sizeT expr ≤ n := by have := sizeT_pos type; omega
      have e1 : eraseGo (n + 1) (Term.Ann type expr done) = eraseGo n expr := rfl
      rw [e1, eraseGo_congr (n + 1) n _ (le_trans (sizeT_eraseGo_le n _) (by omega))
        (le_trans (sizeT_eraseGo_le n _) hs)]
      exact ih n hn _ hs
  | Log msge expr =>
      simp only [sizeT] at h1
      simp only [eraseGo]
      rw [ih n hn msge (by omega), ih n hn expr (by omega)]

/-- C9: erasure is idempotent: `erase(erase(t)) = erase(t)` for every term
(source lines 683-725; spec sections 4.3 and 8). -/
theorem erase_idempotent (t : Term) : erase (erase t) = erase t := by
  show eraseGo (sizeT (erase t)) (erase t) = erase t
  rw [eraseGo_congr (sizeT (erase t)) (sizeT t) (erase t) (le_refl _)
    (sizeT_eraseGo_le (sizeT t) t)]
  exact eraseGo_idem (sizeT t) t (le_refl _)

/-! ## Outcomes

JS computations either return, throw, or diverge.  `Res.err` models a thrown
exception, `Res.out` models fuel exhaustion (the modelling artifact standing
in for divergence). -/

/-- Structured stand-ins for the exception payloads the kernel throws.  The
source throws formatted strings; each constructor corresponds to one `throw`
site and carries the data the claims depend on.  `jsError` models a native
TypeError (e.g. reading a field of `undefined`), which the outer checker
surfaces as a generic failure. -/
inductive TErr where
  | unboundVariable
  | erasedUse
  | forallNotType
  | cantInferLam
  | lamNotForall
  | nonFunction
  | mismatchedErasure
  | ifCondNotNum
  | newNotSelf
  | useNotSelf
  | undefinedReference (name : String)
  | typeMismatch
  | unknownPrimitive (op : String)
  | jsError

/-- Result of a fueled JS computation. -/
inductive Res (α : Type) where
  | out
  | err (e : TErr)
  | ok (a : α)

/-- An entry of the hole registry (spec section 3 "Holes").  `value` is
`none` for JS `undefined` (unset), `some none` for JS `null` (conflicted),
and `some (some t)` for an assigned term.  The `error`/`local` reporting
fields of the source are omitted: they never influence control flow. -/
structure HoleEntry where
  depth : Int
  value : Option (Option Term)

/-- The hole registry: a name-keyed map, modelled as an association list. -/
abbrev Holes := List (String × HoleEntry)

/-- The global definition map `Defs` (spec section 3). -/
abbrev Defs := List (String × Term)

def lookupH : Holes → String → Option HoleEntry
  | [], _ => none
  | (k, v) :: rest, name => if k = name then some v else lookupH rest name

/-- Mutation `opts.holes[name].value = v` on an existing entry. -/
def setH : Holes → String → Option (Option Term) → Holes
  | [], _, _ => []
  | (k, v) :: rest, name, value =>
      if k = name then (k, { v with value := value }) :: rest
      else (k, v) :: setH rest name value

def lookupD : Defs → String → Option Term
  | [], _ => none
  | (k, v) :: rest, name => if k = name then some v else lookupD rest name

def setD : Defs → String → Term → Defs
  | [], _, _ => []
  | (k, v) :: rest, name, t => if k = name then (k, t) :: rest else (k, v) :: setD rest name t

/-- Reducer options (the `opts` object of `reduce`, source lines 429-681).
Absent JS fields read as `undefined`, i.e. `false` / empty / `0`. -/
structure ROpts where
  weak : Bool := false
  no_app : Bool := false
  no_op1 : Bool := false
  no_op2 : Bool := false
  no_ite : Bool := false
  no_ref : Bool := false
  no_hol : Bool := false
  no_use : Bool := false
  no_ann : Bool := false
  holes : Holes := []
  depth : Int := 0

/-! ## The reducer

The source normalizes via HOAS: `unquote` turns de-Bruijn terms into values
whose binders are host closures, `reduce` rewrites values, `quote` reads the
result back (source lines 429-681).  Host closures are defunctionalized here,
exactly as the spec's design notes prescribe for a first-order setting:
`Clo.U body env` is the closure `x => unquote(body, names_ext(x, null, env))`
built by `unquote`, and `Clo.R inner name env` is the wrapper
`x => weak_reduce(inner(x), names_ext(x, name, env))` built by `reduce` around
an existing closure.  `Names` is the environment spine (source lines 405-427). -/

mutual
inductive Sem where
  | Var (index : Int)
  | Typ
  | All (name : String) (bind : Sem) (body : Clo) (eras : Bool)
  | Lam (name : String) (bind : Option Sem) (body : Clo) (eras : Bool)
  | App (func : Sem) (argm : Sem) (eras : Bool)
  | Slf (name : String) (type : Clo)
  | New (type : Sem) (expr : Sem)
  | Use (expr : Sem)
  | Num
  | Val (numb : Int)
  | Op1 (func : String) (num0 : Sem) (num1 : Sem)
  | Op2 (func : String) (num0 : Sem) (num1 : Sem)
  | Ite (cond : Sem) (if_t : Sem) (if_f : Sem)
  | Ann (type : Sem) (expr : Sem) (done : Bool)
  | Log (msge : Sem) (expr : Sem)
  | Hol (name : String)
  | Ref (name : String) (eras : Bool)
inductive Clo where
  | U (body : Term) (env : Names)
  | R (inner : Clo) (name : String) (env : Names)
inductive Names where
  | nil
  | ext (bind : Sem) (name : Option String) (rest : Names)
end

/-- Walks `k` frames outward, staying at `nil` once exhausted (the source's
`names = names ? names.rest : null`). -/
def names_drop : Nat → Names → Names
  | 0, names => names
  | k + 1, .nil => names_drop k .nil
  | k + 1, .ext _ _ rest => names_drop k rest

/-- `names_get` (source lines 409-414): negative indices behave like `0`
because the JS `for` loop never runs. -/
def names_get (i : Int) (names : Names) : Option (Sem × Option String) :=
  match names_drop i.toNat names with
  | .nil => none
  | .ext bind name _ => some (bind, name)

def names_len : Names → Nat
  | .nil => 0
  | .ext _ _ rest => names_len rest + 1

/-- `names_var` (source lines 424-427): environment lookup, or a free
variable counted from the environment length (possibly negative). -/
def names_var (i : Int) (names : Names) : Sem :=
  match names_get i names with
  | some (bind, _) => bind
  | none => .Var (Int.ofNat (names_len names) - i - 1)

/-- `unquote` (source lines 551-591): structural translation into the
semantic domain; binder bodies are suspended as `Clo.U` closures. -/
def unquote (t : Term) (names : Names) : Sem :=
  match t with
  | .Var i => names_var i names
  | .Typ => .Typ
  | .All name bind body eras => .All name (unquote bind names) (.U body names) eras
  | .Lam name none body eras => .Lam name none (.U body names) eras
  | .Lam name (some b) body eras => .Lam name (some (unquote b names)) (.U body names) eras
  | .App func argm eras => .App (unquote func names) (unquote argm names) eras
  | .Num => .Num
  | .Val n => .Val n
  | .Op1 func num0 num1 => .Op1 func (unquote num0 names) (unquote num1 names)
  | .Op2 func num0 num1 => .Op2 func (unquote num0 names) (unquote num1 names)
  | .Ite cond if_t if_f => .Ite (unquote cond names) (unquote if_t names) (unquote if_f names)
  | .Slf name type => .Slf name (.U type names)
  | .New type expr => .New (unquote type names) (unquote expr names)
  | .Use expr => .Use (unquote expr names)
  | .Ann type expr done => .Ann (unquote type names) (unquote expr names) done
  | .Log msge expr => .Log (unquote msge names) (unquote expr names)
  | .Hol name => .Hol name
  | .Ref name eras => .Ref name eras

/-- JS `ToUint32`. -/
def toUint32 (z : Int) : Int := z.emod 4294967296

/-- JS `ToInt32`. -/
def toInt32 (z : Int) : Int :=
  let u := z.emod 4294967296
  if u < 2147483648 then u else u - 4294967296

/-- The primitive-operator table of `op1` (source lines 443-476).  JS numbers
are doubles; this `Int` model is exact for every operator except `./.` and
`.**.`, whose JS results can be non-integral (`./.` is truncated here,
fractional powers are collapsed to `0`); no theorem in this file evaluates
those two.  `.%.` by zero is JS `NaN`, modelled as the dividend
(`Int.tmod a 0 = a`); likewise unevaluated.  The bitwise operators follow the
JS `ToInt32`/`ToUint32` coercions, which on 32-bit patterns amount to `Nat`
bit operations on the `ToUint32` images. -/
def op1CompN (func : String) (a b : Int) : Option Int :=
  if func = ".+." then some (a + b)
  else if func = ".-." then some (a - b)
  else if func = ".*." then some (a * b)
  else if func = "./." then some (Int.tdiv a b)
  else if func = ".%." then some (Int.tmod a b)
  else if func = ".**." then some (if 0 ≤ b then a ^ b.toNat else 0)
  else if func = ".&." then some (Int.ofNat (Nat.land (toUint32 a).toNat (toUint32 b).toNat))
  else if func = ".|." then some (Int.ofNat (Nat.lor (toUint32 a).toNat (toUint32 b).toNat))
  else if func = ".^." then some (Int.ofNat (Nat.xor (toUint32 a).toNat (toUint32 b).toNat))
  else if func = ".~." then some (-(toInt32 b) - 1)
  else if func = ".>>>." then
    some (Int.ofNat (Nat.shiftRight (toUint32 a).toNat ((toUint32 b).toNat % 32)))
  else if func = ".<<." then
    some (toInt32 (Int.ofNat ((Nat.shiftLeft (toUint32 a).toNat ((toUint32 b).toNat % 32)) % 4294967296)))
  else if func = ".>." then some (if b < a then 1 else 0)
  else if func = ".<." then some (if a < b then 1 else 0)
  else if func = ".==." then some (if a = b then 1 else 0)
  else none

def op1Comp (func : String) (a b : Int) : Res Sem :=
  match op1CompN func a b with
  | some v => .ok (.Val v)
  | none => .err (.unknownPrimitive func)

/-- JS tag test `func[0] === "Lam"`, returning `func[1].body`. -/
def lamClo? : Sem → Option Clo
  | .Lam _ _ body _ => some body
  | _ => none

/-- JS tag test `term[0] === "Val"`, returning `term[1].numb`. -/
def valNum? : Sem → Option Int
  | .Val n => some n
  | _ => none

/-- JS tag test `expr[0] === "New"`, returning `expr[1].expr`. -/
def newExpr? : Sem → Option Sem
  | .New _ e => some e
  | _ => none

/-- Requests of the reduction engine: `red` is the inner `reduce(term, names)`
of the source, `app` is the application of a (defunctionalized) closure. -/
inductive RReq where
  | red (s : Sem) (env : Names)
  | app (c : Clo) (x : Sem)

/-- The reducer's engine: the inner `reduce` (source lines 592-632) together
with closure application, merged into one fuel-structural function so that
the kernel can evaluate it.  Every recursive call consumes one unit of fuel
(fuel is a depth bound).  `weak_reduce t = opts.weak ? t : reduce(t)` is
inlined at each use site. -/
def redEngine : Nat → ROpts → Defs → RReq → Res Sem
  | 0, _, _, _ => .out
  | fuel + 1, opts, defs, .app c x =>
    match c with
    | .U body env => .ok (unquote body (.ext x none env))
    | .R inner name env =>
        match redEngine fuel opts defs (.app inner x) with
        | .ok r =>
            if opts.weak then .ok r
            else redEngine fuel opts defs (.red r (.ext x (some name) env))
        | .err e => .err e
        | .out => .out
  | fuel + 1, opts, defs, .red s env =>
    match s with
    | .Var i => .ok (.Var i)
    | .Typ => .ok .Typ
    | .All name bind body eras =>
        match (if opts.weak then .ok bind else redEngine fuel opts defs (.red bind env)) with
        | .ok bind2 => .ok (.All name bind2 (.R body name env) eras)
        | .err e => .err e
        | .out => .out
    | .Lam name none body eras => .ok (.Lam name none (.R body name env) eras)
    | .Lam name (some b) body eras =>
        match (if opts.weak then .ok b else redEngine fuel opts defs (.red b env)) with
        | .ok b2 => .ok (.Lam name (some b2) (.R body name env) eras)
        | .err e => .err e
        | .out => .out
    | .App func argm eras =>
        match redEngine fuel opts defs (.red func env) with
        | .ok func2 =>
            match lamClo? func2 with
            | some body =>
                if opts.no_app then
                  match (if opts.weak then .ok argm else redEngine fuel opts defs (.red argm env)) with
                  | .ok a2 => .ok (.App func2 a2 eras)
                  | .err e => .err e
                  | .out => .out
                else
                  match redEngine fuel opts defs (.app body argm) with
                  | .ok applied => redEngine fuel opts defs (.red applied env)
                  | .err e => .err e
                  | .out => .out
            | none =>
                match (if opts.weak then .ok argm else redEngine fuel opts defs (.red argm env)) with
                | .ok a2 => .ok (.App func2 a2 eras)
                | .err e => .err e
                | .out => .out
        | .err e => .err e
        | .out => .out
    | .Num => .ok .Num
    | .Val n => .ok (.Val n)
    | .Op1 func num0 num1 =>
        match redEngine fuel opts defs (.red num0 env) with
        | .ok num0r =>
            match valNum? num0r, valNum? num1 with
            | some a, some b =>
                if opts.no_op1 then .ok (.Op1 func num0r num1) else op1Comp func a b
            | _, _ => .ok (.Op1 func num0r num1)
        | .err e => .err e
        | .out => .out
    | .Op2 func num0 num1 =>
        match redEngine fuel opts defs (.red num1 env) with
        | .ok num1r =>
            match valNum? num1r with
            | some _ =>
                if opts.no_op2 then
                  match (if opts.weak then .ok num0 else redEngine fuel opts defs (.red num0 env)) with
                  | .ok n0 => .ok (.Op2 func n0 num1r)
                  | .err e => .err e
                  | .out => .out
                else redEngine fuel opts defs (.red (.Op1 func num0 num1r) env)
            | none =>
                match (if opts.weak then .ok num0 else redEngine fuel opts defs (.red num0 env)) with
                | .ok n0 => .ok (.Op2 func n0 num1r)
                | .err e => .err e
                | .out => .out
        | .err e => .err e
        | .out => .out
    | .Ite cond if_t if_f =>
        match redEngine fuel opts defs (.red cond env) with
        | .ok condr =>
            match valNum? condr with
            | some n =>
                if opts.no_ite then
                  match (if opts.weak then .ok if_t else redEngine fuel opts defs (.red if_t env)) with
                  | .ok t2 =>
                      match (if opts.weak then .ok if_f else redEngine fuel opts defs (.red if_f env)) with
                      | .ok f2 => .ok (.Ite condr t2 f2)
                      | .err e => .err e
                      | .out => .out
                  | .err e => .err e
                  | .out => .out
                else if n > 0 then redEngine fuel opts defs (.red if_t env)
                else redEngine fuel opts defs (.red if_f env)
            | none =>
                match (if opts.weak then .ok if_t else redEngine fuel opts defs (.red if_t env)) with
                | .ok t2 =>
                    match (if opts.weak then .ok if_f else redEngine fuel opts defs (.red if_f env)) with
                    | .ok f2 => .ok (.Ite condr t2 f2)
                    | .err e => .err e
                    | .out => .out
                | .err e => .err e
                | .out => .out
        | .err e => .err e
        | .out => .out
    | .Slf name type => .ok (.Slf name (.R type name env))
    | .New type expr =>
        match (if opts.weak then .ok type else redEngine fuel opts defs (.red type env)) with
        | .ok t2 =>
            match (if opts.weak then .ok expr else redEngine fuel opts defs (.red expr env)) with
            | .ok e2 => .ok (.New t2 e2)
            | .err e => .err e
            | .out => .out
        | .err e => .err e
        | .out => .out
    | .Use expr =>
        match redEngine fuel opts defs (.red expr env) with
        | .ok exprr =>
            match newExpr? exprr with
            | some inner =>
                if opts.no_use then .ok (.Use exprr)
                else redEngine fuel opts defs (.red inner env)
            | none => .ok (.Use exprr)
        | .err e => .err e
        | .out => .out
    | .Ann type expr _ =>
        match redEngine fuel opts defs (.red expr env) with
        | .ok exprr =>
            if opts.no_ann then
              match (if opts.weak then .ok type else redEngine fuel opts defs (.red type env)) with
              | .ok t2 => .ok (.Ann t2 exprr false)
              | .err e => .err e
              | .out => .out
            else .ok exprr
        | .err e => .err e
        | .out => .out
    | .Log msge expr =>
        match redEngine fuel opts defs (.red msge env) with
        | .ok _ => redEngine fuel opts defs (.red expr env)
        | .err e => .err e
        | .out => .out
    | .Hol name =>
        if opts.no_hol then .ok (.Hol name)
        else
          match lookupH opts.holes name with
          | some entry =>
              match entry.value with
              | some (some value) =>
                  redEngine fuel opts defs
                    (.red (unquote (shift value ((opts.depth + Int.ofNat (names_len env)) - entry.depth) 0) env) env)
              | _ => .ok (.Hol name)
          | none => .ok (.Hol name)
    | .Ref name eras =>
        if opts.no_ref then .ok (.Ref name eras)
        else
          match lookupD defs name with
          | some value =>
              redEngine fuel opts defs (.red (unquote (if eras then erase value else value) .nil) .nil)
          | none => .ok (.Ref name eras)

/-- Closure application: the JS call `clo(x)` for a defunctionalized closure. -/
def applyClo (fuel : Nat) (opts : ROpts) (defs : Defs) (c : Clo) (x : Sem) : Res Sem :=
  redEngine fuel opts defs (.app c x)

/-- The inner one-value reducer `reduce(term, names)` of the source. -/
def reduceSem (fuel : Nat) (opts : ROpts) (defs : Defs) (s : Sem) (env : Names) : Res Sem :=
  redEngine fuel opts defs (.red s env)

/-- `quote` (source lines 633-670): reads a semantic value back into a
de-Bruijn term; binder closures are applied to `Var depth`. -/
def quote : Nat → ROpts → Defs → Sem → Int → Res Term
  | 0, _, _, _, _ => .out
  | fuel + 1, opts, defs, s, depth =>
    match s with
    | .Var i => .ok (.Var (depth - 1 - i))
    | .Typ => .ok .Typ
    | .All name bind body eras =>
        match quote fuel opts defs bind depth with
        | .ok bq =>
            match redEngine fuel opts defs (.app body (.Var depth)) with
            | .ok bapp =>
                match quote fuel opts defs bapp (depth + 1) with
                | .ok bodyq => .ok (.All name bq bodyq eras)
                | .err e => .err e
                | .out => .out
            | .err e => .err e
            | .out => .out
        | .err e => .err e
        | .out => .out
    | .Lam name none body eras =>
        match redEngine fuel opts defs (.app body (.Var depth)) with
        | .ok bapp =>
            match quote fuel opts defs bapp (depth + 1) with
            | .ok bodyq => .ok (.Lam name none bodyq eras)
            | .err e => .err e
            | .out => .out
        | .err e => .err e
        | .out => .out
    | .Lam name (some b) body eras =>
        match quote fuel opts defs b depth with
        | .ok bq =>
            match redEngine fuel opts defs (.app body (.Var depth)) with
            | .ok bapp =>
                match quote fuel opts defs bapp (depth + 1) with
                | .ok bodyq => .ok (.Lam name (some bq) bodyq eras)
                | .err e => .err e
                | .out => .out
            | .err e => .err e
            | .out => .out
        | .err e => .err e
        | .out => .out
    | .App func argm eras =>
        match quote fuel opts defs func depth with
        | .ok fq =>
            match quote fuel opts defs argm depth with
            | .ok aq => .ok (.App fq aq eras)
            | .err e => .err e
            | .out => .out
        | .err e => .err e
        | .out => .out
    | .Num => .ok .Num
    | .Val n => .ok (.Val n)
    | .Op1 func num0 num1 =>
        match quote fuel opts defs num0 depth with
        | .ok n0 =>
            match quote fuel opts defs num1 depth with
            | .ok n1 => .ok (.Op1 func n0 n1)
            | .err e => .err e
            | .out => .out
        | .err e => .err e
        | .out => .out
    | .Op2 func num0 num1 =>
        match quote fuel opts defs num0 depth with
        | .ok n0 =>
            match quote fuel opts defs num1 depth with
            | .ok n1 => .ok (.Op2 func n0 n1)
            | .err e => .err e
            | .out => .out
        | .err e => .err e
        | .out => .out
    | .Ite cond if_t if_f =>
        match quote fuel opts defs cond depth with
        | .ok cq =>
            match quote fuel opts defs if_t depth with
            | .ok tq =>
                match quote fuel opts defs if_f depth with
                | .ok fq => .ok (.Ite cq tq fq)
                | .err e => .err e
                | .out => .out
            | .err e => .err e
            | .out => .out
        | .err e => .err e
        | .out => .out
    | .Slf name type =>
        match redEngine fuel opts defs (.app type (.Var depth)) with
        | .ok tapp =>
            match quote fuel opts defs tapp (depth + 1) with
            | .ok tq => .ok (.Slf name tq)
            | .err e => .err e
            | .out => .out
        | .err e => .err e
        | .out => .out
    | .New type expr =>
        match quote fuel opts defs type depth with
        | .ok tq =>
            match quote fuel opts defs expr depth with
            | .ok eq2 => .ok (.New tq eq2)
            | .err e => .err e
            | .out => .out
        | .err e => .err e
        | .out => .out
    | .Use expr =>
        match quote fuel opts defs expr depth with
        | .ok eq2 => .ok (.Use eq2)
        | .err e => .err e
        | .out => .out
    | .Ann type expr done =>
        match quote fuel opts defs type depth with
        | .ok tq =>
            match quote fuel opts defs expr depth with
            | .ok eq2 => .ok (.Ann tq eq2 done)
            | .err e => .err e
            | .out => .out
        | .err e => .err e
        | .out => .out
    | .Log msge expr =>
        match quote fuel opts defs msge depth with
        | .ok mq =>
            match quote fuel opts defs expr depth with
            | .ok eq2 => .ok (.Log mq eq2)
            | .err e => .err e
            | .out => .out
        | .err e => .err e
        | .out => .out
    | .Hol name => .ok (.Hol name)
    | .Ref name eras => .ok (.Ref name eras)

/-- The public reducer `reduce(term, defs, opts)` when handed a `Term`
(source lines 674-680): unquote, reduce, quote back at depth 0. -/
def reduceTop (fuel : Nat) (t : Term) (defs : Defs) (opts : ROpts) : Res Term :=
  match redEngine fuel opts defs (.red (unquote t .nil) .nil) with
  | .ok s => quote fuel opts defs s 0
  | .err e => .err e
  | .out => .out

/-- The public reducer's entry coercion (source line 674): a string argument
is wrapped as `Ref(term, false)` before reduction. -/
def reduceEntry (fuel : Nat) (input : String ⊕ Term) (defs : Defs) (opts : ROpts) : Res Term :=
  match input with
  | .inl s => reduceTop fuel (.Ref s false) defs opts
  | .inr t => reduceTop fuel t defs opts

/-- C10: the reducer's public entry accepts a definition name in place of a
term: `reduce(s, defs, opts)` computes exactly `reduce(Ref(s, false), defs,
opts)` (source line 674). -/
theorem reduce_string_entry (fuel : Nat) (s : String) (defs : Defs) (opts : ROpts) :
    reduceEntry fuel (.inl s) defs opts = reduceEntry fuel (.inr (.Ref s false)) defs opts := rfl

/-- C3 counterexample: at the word values a = 4294967295 and b = 1, the
reducer yields `Val 4294967296`, not `Val ((a + b) mod 2^32) = Val 0`: the
`.+.` case of `op1` (source line 445) performs plain JS addition with no
`>>> 0` truncation (contrast the bitwise cases, lines 457-461). -/
theorem op2_add_wrap_cex :
    reduceTop 5 (.Op2 ".+." (.Val 4294967295) (.Val 1)) [] {} = .ok (.Val 4294967296)
    ∧ (4294967295 + 1) % 4294967296 = 0
    ∧ Term.Val 4294967296 ≠ Term.Val 0 := by
  refine ⟨rfl, by norm_num, ?_⟩
  intro h
  injection h with h2
  exact absurd h2 (by norm_num)

/-- C3 as amended: numeric addition does not wrap at 2^32.  For word values
a and b, reducing `Op2(".+.", Val a, Val b)` with numeric reduction enabled
yields `Val (a + b)` exactly (the sum can reach 2^33 - 2, on which JS double
arithmetic is still exact); only the bitwise operators truncate. -/
theorem op2_add_exact (fuel : Nat) (a b : Int) (defs : Defs) (opts : ROpts)
    (h1 : 0 ≤ a) (h2 : a < 4294967296) (h3 : 0 ≤ b) (h4 : b < 4294967296)
    (hop1 : opts.no_op1 = false) (hop2 : opts.no_op2 = false) :
    reduceTop (fuel + 3) (.Op2 ".+." (.Val a) (.Val b)) defs opts = .ok (.Val (a + b)) := by
  simp [reduceTop, unquote, redEngine, quote, op1Comp, op1CompN, valNum?, hop1, hop2]

theorem op2_add_exact_witness :
    reduceTop 3 (.Op2 ".+." (.Val 5) (.Val 3)) [] {} = .ok (.Val 8) :=
  op2_add_exact 0 5 3 [] {} (by norm_num) (by norm_num) (by norm_num) (by norm_num) rfl rfl

/-- C4: the ι rule `if_then_else` (source lines 491-499): when the condition
is a word literal `Val n` and ι is enabled, the reducer selects the
then-branch exactly when n is non-zero (the source tests `numb > 0`, which
on word values coincides with n ≠ 0). -/
theorem ite_selects_nonzero (fuel : Nat) (opts : ROpts) (defs : Defs) (n : Int)
    (t f : Sem) (env : Names) (h1 : 0 ≤ n) (h2 : n < 4294967296)
    (hite : opts.no_ite = false) :
    reduceSem (fuel + 1) opts defs (.Ite (.Val n) t f) env =
      (if n ≠ 0 then reduceSem fuel opts defs t env else reduceSem fuel opts defs f env) := by
  cases fuel with
  | zero => simp [reduceSem, redEngine, valNum?]
  | succ g =>
      by_cases hz : n = 0
      · subst hz
        simp [reduceSem, redEngine, valNum?, hite]
      · have hpos : 0 < n := lt_of_le_of_ne h1 (Ne.symm hz)
        simp [reduceSem, redEngine, valNum?, hite, hz, hpos]

theorem ite_selects_nonzero_witness :
    reduceSem 3 {} [] (.Ite (.Val 3) (.Val 1) (.Val 2)) .nil = reduceSem 2 {} [] (.Val 1) .nil :=
  (ite_selects_nonzero 2 {} [] 3 (.Val 1) (.Val 2) .nil (by norm_num) (by norm_num) rfl).trans
    (if_pos (by norm_num))

/-! ## The equality and unification engine

`equal` (source lines 728-882) evaluates a search tree of equality
obligations; `Eqs` is an obligation at a depth, `Bop v x y` a short-circuit
boolean node, `Val` a leaf.  The engine erases both sides on entry, weak-head
reduces each obligation's sides with and without δ, and assigns holes. -/

inductive EqNode where
  | Eqs (a : Term) (b : Term) (d : Int)
  | Bop (v : Bool) (x : EqNode) (y : EqNode)
  | Val (v : Bool)

/-- JS field access `term[1].numb`, `undefined` for non-`Val` terms. -/
def numbOf : Term → Option Int
  | .Val n => some n
  | _ => none

/-- The structural branch of `equal` (the `switch (ay[0])` at source lines
778-855) comparing the two δ-reduced weak-head forms; a constructor mismatch
leaves `Val false`.  Note the `Op1` arm (source line 818): the literal check
compares `ay[1].num1[1]["numb"]` with itself, mirrored verbatim here. -/
def structY (ay b_y : Term) (d : Int) : EqNode :=
  match ay, b_y with
  | .Var i, .Var j => .Val (i == j)
  | .Typ, .Typ => .Val true
  | .All _ bind body eras, .All _ bind2 body2 eras2 =>
      .Bop false (.Bop false (.Eqs bind bind2 d) (.Eqs body body2 (d + 1))) (.Val (eras == eras2))
  | .Lam _ _ body eras, .Lam _ _ body2 eras2 =>
      .Bop false (.Eqs body body2 (d + 1)) (.Val (eras == eras2))
  | .App func argm eras, .App func2 argm2 eras2 =>
      .Bop false (.Bop false (.Eqs func func2 d) (.Eqs argm argm2 d)) (.Val (eras == eras2))
  | .Num, .Num => .Val true
  | .Val n, .Val m => .Val (n == m)
  | .Op1 func num0 num1, .Op1 func2 num02 _ =>
      .Bop false (.Val (func == func2))
        (.Bop false (.Eqs num0 num02 d) (.Val (numbOf num1 == numbOf num1)))
  | .Op2 func num0 num1, .Op2 func2 num02 num12 =>
      .Bop false (.Val (func == func2)) (.Bop false (.Eqs num0 num02 d) (.Eqs num1 num12 d))
  | .Ite cond if_t _, .Ite cond2 if_t2 _ => .Bop false (.Eqs cond cond2 d) (.Eqs if_t if_t2 d)
  | .Slf _ type, .Slf _ type2 => .Eqs type type2 (d + 1)
  | .New _ expr, .New _ expr2 => .Eqs expr expr2 d
  | .Use expr, .Use expr2 => .Eqs expr expr2 d
  | .Log _ expr, .Log _ expr2 => .Eqs expr expr2 d
  | .Ann _ expr _, .Ann _ expr2 _ => .Eqs expr expr2 d
  | _, _ => .Val false

/-- JS tag test `term[0] === "Hol"`, returning the hole's name. -/
def isHol? : Term → Option String
  | .Hol n => some n
  | _ => none

/-- The shortcut test `ax[0]==="Ref" && bx[0]==="Ref" && same name`
(source line 752). -/
def refEq : Term → Term → Bool
  | .Ref n1 _, .Ref n2 _ => n1 == n2
  | _, _ => false

/-- JS tag test `node[0] === "Val"` on a search-tree node. -/
def nodeVal? : EqNode → Option Bool
  | .Val v => some v
  | _ => none

/-- The hole/expression split of the hint branch (source lines 755-757):
`ax` is preferred when both weak-head forms are holes. -/
def holePick (a b : Term) : Option (String × Term) :=
  match isHol? a with
  | some n => some (n, b)
  | none =>
      match isHol? b with
      | some n => some (n, a)
      | none => none

/-- Requests of the equality engine: `step` is one call of the source's
`step`, `loop` the `while (tree[0] !== "Val")` driver. -/
inductive EqReq where
  | step (node : EqNode)
  | loop (node : EqNode)

/-- The equality engine (source lines 735-881), fuel-structural.  Holes are
threaded through every call, mirroring the shared mutable `opts.holes`. -/
def eqGo : Nat → Defs → EqReq → Holes → (Res EqNode) × Holes
  | 0, _, _, h => (.out, h)
  | fuel + 1, defs, .loop node, h =>
      match node with
      | .Val v => (.ok (.Val v), h)
      | node =>
          match eqGo fuel defs (.step node) h with
          | (.ok node2, h2) => eqGo fuel defs (.loop node2) h2
          | e => e
  | fuel + 1, defs, .step node, h =>
      match node with
      | .Val v => (.ok (.Val v), h)
      | .Bop v x y =>
          match nodeVal? x with
          | some xv => if xv == v then (.ok (.Val v), h) else (.ok y, h)
          | none =>
              match nodeVal? y with
              | some yv => if yv == v then (.ok (.Val v), h) else (.ok x, h)
              | none =>
                  match eqGo fuel defs (.step x) h with
                  | (.ok x2, h1) =>
                      match eqGo fuel defs (.step y) h1 with
                      | (.ok y2, h2) => (.ok (.Bop v x2 y2), h2)
                      | e => e
                  | e => e
      | .Eqs a b d =>
          match reduceTop fuel a [] { weak := true, holes := h, depth := d } with
          | .err e => (.err e, h)
          | .out => (.out, h)
          | .ok ax =>
          match reduceTop fuel b [] { weak := true, holes := h, depth := d } with
          | .err e => (.err e, h)
          | .out => (.out, h)
          | .ok bx =>
          match reduceTop fuel a defs { weak := true, holes := h, depth := d } with
          | .err e => (.err e, h)
          | .out => (.out, h)
          | .ok ay =>
          match reduceTop fuel b defs { weak := true, holes := h, depth := d } with
          | .err e => (.err e, h)
          | .out => (.out, h)
          | .ok b_y =>
          if hash a == hash b || hash ax == hash bx || hash ay == hash b_y then
            (.ok (.Val true), h)
          else
            if refEq ax bx then
              (.ok (.Bop true (.Val true) (structY ay b_y d)), h)
            else
              match holePick ax bx with
              | some (hname, expr) =>
                  match lookupH h hname with
                  | some entry =>
                      match entry.value with
                      | none =>
                          (.ok (.Bop true (.Val true) (structY ay b_y d)),
                           setH h hname (some (some (shift expr (entry.depth - d) 0))))
                      | some none => (.ok (.Bop true (.Val true) (structY ay b_y d)), h)
                      | some (some hole_v) =>
                          match eqGo fuel defs
                              (.loop (.Eqs (erase hole_v)
                                (erase (shift expr (entry.depth - d) 0)) entry.depth)) h with
                          | (.ok (.Val true), h2) =>
                              (.ok (.Bop true (.Val true) (structY ay b_y d)), h2)
                          | (.ok (.Val false), h2) =>
                              (.ok (.Bop true (.Val true) (structY ay b_y d)), setH h2 hname (some none))
                          | (.ok _, h2) => (.out, h2)
                          | (.err e, h2) => (.err e, h2)
                          | (.out, h2) => (.out, h2)
                  | none => (.ok (structY ay b_y d), h)
              | none =>
                  match ax, bx with
                  | .App f1 a1 _, .App f2 a2 _ =>
                      (.ok (.Bop true (.Bop false (.Eqs f1 f2 d) (.Eqs a1 a2 d)) (structY ay b_y d)), h)
                  | _, _ => (.ok (structY ay b_y d), h)

/-- One call of the source's `step` on a search-tree node. -/
def stepF (fuel : Nat) (defs : Defs) (node : EqNode) (holes : Holes) :
    (Res EqNode) × Holes :=
  eqGo fuel defs (.step node) holes

/-- `equal(a, b, depth, defs, opts)` (source lines 728-882): erase both
sides, then drive the search tree to a boolean leaf. -/
def equalF (fuel : Nat) (a b : Term) (depth : Int) (defs : Defs) (holes : Holes) :
    (Res Bool) × Holes :=
  match eqGo fuel defs (.loop (.Eqs (erase a) (erase b) depth)) holes with
  | (.ok (.Val v), h) => (.ok v, h)
  | (.ok _, h) => (.out, h)
  | (.err e, h) => (.err e, h)
  | (.out, h) => (.out, h)

/-- C1: the `Op1` arm of `equal`'s structural branch (source line 818)
compares the right-hand literal of `ay` with itself, so two `Op1` forms that
agree except for their numeric literal are judged equal: the engine returns
`true` on `Op1(".+.", Var 0, Val 5)` versus `Op1(".+.", Var 0, Val 6)`,
where the claim demands `false`. -/
theorem equal_op1_literal_self_compare :
    equalF 12 (.Op1 ".+." (.Var 0) (.Val 5)) (.Op1 ".+." (.Var 0) (.Val 6)) 1 [] []
      = (.ok true, []) := rfl

/-! ## Hole monotonicity (claim C6)

Key invariant: whenever `reduce` hands back a weak-head `Hol`, the hole's
registry entry (if any) is unset or null, because `unhole` (source lines
510-523) dereferences any assigned hole.  Consequently the consistency
re-check `equal(hole_v, expr_s, ...)` at source line 766 is unreachable from
`equal` itself, and each `Eqs` step writes at most the one hole it
processes. -/

theorem quote_hol : ∀ (fuel : Nat) (opts : ROpts) (defs : Defs) (s : Sem) (d : Int) (n : String),
    quote fuel opts defs s d = .ok (.Hol n) → s = .Hol n := by
  intro fuel opts defs s d n h
  match fuel with
  | 0 => exact absurd h (by simp [quote])
  | fuel + 1 =>
    cases s <;> simp only [quote] at h <;> (repeat' split at h) <;> simp_all

theorem op1Comp_not_hol (func : String) (a b : Int) (n : String) :
    op1Comp func a b ≠ .ok (.Hol n) := by
  intro h
  unfold op1Comp at h
  cases hc : op1CompN func a b <;> rw [hc] at h <;> simp at h

set_option maxHeartbeats 1600000 in
theorem redEngine_hol : ∀ (fuel : Nat) (opts : ROpts) (defs : Defs),
    opts.no_hol = false → ∀ (s : Sem) (env : Names) (n : String),
    redEngine fuel opts defs (.red s env) = .ok (.Hol n) →
    ∀ e, lookupH opts.holes n = some e → e.value = none ∨ e.value = some none := by
  intro fuel
  induction fuel with
  | zero => intro opts defs hnh s env n h e he; exact absurd h (by simp [redEngine])
  | succ fuel ih =>
    intro opts defs hnh s env n h e he
    cases s with
    | Ann type expr done =>
        simp only [redEngine] at h
        cases hx : redEngine fuel opts defs (.red expr env) with
        | ok exprr =>
            simp only [hx] at h
            by_cases hna : opts.no_ann = true
            · rw [if_pos hna] at h
              (repeat' split at h) <;> simp_all
            · rw [if_neg hna] at h
              injection h with h1
              rw [h1] at hx
              exact ih opts defs hnh _ _ _ hx e he
        | err e2 => simp [hx] at h
        | out => simp [hx] at h
    | Hol name =>
        simp only [redEngine, hnh, Bool.false_eq_true, if_false] at h
        cases hl : lookupH opts.holes name with
        | some entry =>
            simp only [hl] at h
            cases hv : entry.value with
            | some ov =>
                cases ov with
                | some v =>
                    simp only [hv] at h
                    exact ih opts defs hnh _ _ _ h e he
                | none =>
                    simp only [hv] at h
                    injection h with h1
                    injection h1 with h2
                    subst h2
                    rw [hl] at he
                    injection he with he2
                    rw [← he2]
                    exact Or.inr hv
            | none =>
                simp only [hv] at h
                injection h with h1
                injection h1 with h2
                subst h2
                rw [hl] at he
                injection he with he2
                rw [← he2]
                exact Or.inl hv
        | none =>
            simp only [hl] at h
            injection h with h1
            injection h1 with h2
            subst h2
            rw [hl] at he
            exact absurd he (by simp)
    | Lam name bind body eras =>
        cases bind with
        | none =>
            simp only [redEngine] at h
            exact absurd h (by simp)
        | some b =>
            simp only [redEngine] at h
            (repeat' split at h) <;> exact absurd h (by simp)
    | _ =>
        simp only [redEngine] at h <;> (repeat' split at h) <;>
          first
          | exact ih opts defs hnh _ _ _ h e he
          | exact absurd h (op1Comp_not_hol _ _ _ _)
          | exact absurd h (by simp)
          | contradiction

theorem reduceTop_hol {fuel : Nat} {t : Term} {defs : Defs} {opts : ROpts} {n : String}
    (hnh : opts.no_hol = false) (h : reduceTop fuel t defs opts = .ok (.Hol n)) :
    ∀ e, lookupH opts.holes n = some e → e.value = none ∨ e.value = some none := by
  intro e he
  unfold reduceTop at h
  cases hx : redEngine fuel opts defs (.red (unquote t .nil) .nil) with
  | ok s =>
      simp only [hx] at h
      have hs := quote_hol fuel opts defs s 0 n h
      rw [hs] at hx
      exact redEngine_hol fuel opts defs hnh _ _ _ hx e he
  | err e2 => simp [hx] at h
  | out => simp [hx] at h

theorem isHol?_eq : ∀ {t : Term} {n : String}, isHol? t = some n → t = .Hol n := by
  intro t n h
  cases t <;> simp_all [isHol?]

theorem holePick_hol {a b : Term} {nm : String} {expr : Term}
    (hp : holePick a b = some (nm, expr)) : a = .Hol nm ∨ b = .Hol nm := by
  unfold holePick at hp
  cases hA : isHol? a with
  | some n =>
      rw [hA] at hp
      injection hp with hp1
      injection hp1 with hp2 hp3
      exact Or.inl (hp2 ▸ isHol?_eq hA)
  | none =>
      rw [hA] at hp
      cases hB : isHol? b with
      | some n =>
          rw [hB] at hp
          injection hp with hp1
          injection hp1 with hp2 hp3
          exact Or.inr (hp2 ▸ isHol?_eq hB)
      | none => rw [hB] at hp; exact absurd hp (by simp)

theorem lookupH_setH_self : ∀ (h : Holes) (key : String) (entry : HoleEntry)
    (v : Option (Option Term)), lookupH h key = some entry →
    lookupH (setH h key v) key = some { entry with value := v } := by
  intro h
  induction h with
  | nil => intro key entry v hl; simp [lookupH] at hl
  | cons kv rest ih =>
      intro key entry v hl
      obtain ⟨k, e⟩ := kv
      by_cases hk : k = key
      · subst hk
        simp [lookupH] at hl
        simp [setH, lookupH, hl]
      · simp only [lookupH, if_neg hk] at hl
        simp only [setH, if_neg hk, lookupH, if_neg hk]
        exact ih key entry v hl

theorem lookupH_setH_other : ∀ (h : Holes) (key m : String) (v : Option (Option Term)),
    m ≠ key → lookupH (setH h key v) m = lookupH h m := by
  intro h
  induction h with
  | nil => intro key m v hm; rfl
  | cons kv rest ih =>
      intro key m v hm
      obtain ⟨k, e⟩ := kv
      by_cases hk : k = key
      · subst hk
        have hkm : ¬(k = m) := fun hh => hm hh.symm
        simp [setH, lookupH, hkm]
      · by_cases hkm : k = m
        · subst hkm
          simp [setH, lookupH, hk]
        · simp [setH, lookupH, hk, hkm]
          exact ih key m v hm

/-- The per-hole transition relation of claim C6: across a step, each hole
entry is either untouched or goes from unset to assigned. -/
def HoleTrans (h h2 : Holes) : Prop :=
  ∀ name, lookupH h2 name = lookupH h name ∨
    ∃ entry t, lookupH h name = some entry ∧ entry.value = none ∧
      lookupH h2 name = some { entry with value := some (some t) }

theorem HoleTrans_refl (h : Holes) : HoleTrans h h := fun _ => Or.inl rfl

theorem HoleTrans_trans {h1 h2 h3 : Holes} (a : HoleTrans h1 h2) (b : HoleTrans h2 h3) :
    HoleTrans h1 h3 := by
  intro name
  rcases b name with hb | ⟨e2, t2, hb1, hb2, hb3⟩
  · rcases a name with ha | ⟨e1, t1, ha1, ha2, ha3⟩
    · exact Or.inl (hb.trans ha)
    · exact Or.inr ⟨e1, t1, ha1, ha2, hb.trans ha3⟩
  · rcases a name with ha | ⟨e1, t1, ha1, ha2, ha3⟩
    · exact Or.inr ⟨e2, t2, ha.symm.trans hb1, hb2, hb3⟩
    · rw [ha3] at hb1
      injection hb1 with hh
      rw [← hh] at hb2
      simp at hb2

/-- C6: hole assignment is monotone across every step of the equality
engine: each hole entry is unchanged or transitions unset → assigned (an
assigned hole in particular keeps its value; the null downgrade at source
line 767 is unreachable from `equal`'s own states by `reduceTop_hol`), and
an `Eqs` step changes no hole other than the one it processes. -/
theorem equal_hole_monotone : ∀ (fuel : Nat) (defs : Defs) (node : EqNode) (h : Holes)
    (r : Res EqNode) (h2 : Holes), stepF fuel defs node h = (r, h2) →
    HoleTrans h h2 ∧ (∀ a b d, node = .Eqs a b d →
      ∃ nm, ∀ m, m ≠ nm → lookupH h2 m = lookupH h m) := by
  intro fuel
  induction fuel with
  | zero =>
      intro defs node h r h2 hstep
      simp only [stepF, eqGo] at hstep
      injection hstep with hr hh
      subst hr; subst hh
      exact ⟨HoleTrans_refl h, fun a b d _ => ⟨"", fun m _ => rfl⟩⟩
  | succ fuel ih =>
      intro defs node h r h2 hstep
      cases node with
      | Val v =>
          simp only [stepF, eqGo] at hstep
          injection hstep with hr hh
          subst hr; subst hh
          exact ⟨HoleTrans_refl h, fun a b d hcon => nomatch hcon⟩
      | Bop v x y =>
          simp only [stepF, eqGo] at hstep
          cases hvx : nodeVal? x with
          | some xv =>
              simp only [hvx] at hstep
              split at hstep <;>
                (injection hstep with hr hh; subst hr; subst hh;
                 exact ⟨HoleTrans_refl h, fun a b d hcon => nomatch hcon⟩)
          | none =>
              simp only [hvx] at hstep
              cases hvy : nodeVal? y with
              | some yv =>
                  simp only [hvy] at hstep
                  split at hstep <;>
                    (injection hstep with hr hh; subst hr; subst hh;
                     exact ⟨HoleTrans_refl h, fun a b d hcon => nomatch hcon⟩)
              | none =>
                  simp only [hvy] at hstep
                  rcases hsx : eqGo fuel defs (.step x) h with ⟨r1, hx1⟩
                  have tx := (ih defs x h r1 hx1 hsx).1
                  cases r1 with
                  | ok x2 =>
                      simp only [hsx] at hstep
                      rcases hsy : eqGo fuel defs (.step y) hx1 with ⟨r2, hy2⟩
                      have ty := (ih defs y hx1 r2 hy2 hsy).1
                      cases r2 with
                      | ok y2 =>
                          simp only [hsy] at hstep
                          injection hstep with hr hh
                          subst hr; subst hh
                          exact ⟨HoleTrans_trans tx ty, fun a b d hcon => nomatch hcon⟩
                      | err e2 =>
                          simp only [hsy] at hstep
                          injection hstep with hr hh
                          subst hr; subst hh
                          exact ⟨HoleTrans_trans tx ty, fun a b d hcon => nomatch hcon⟩
                      | out =>
                          simp only [hsy] at hstep
                          injection hstep with hr hh
                          subst hr; subst hh
                          exact ⟨HoleTrans_trans tx ty, fun a b d hcon => nomatch hcon⟩
                  | err e1 =>
                      simp only [hsx] at hstep
                      injection hstep with hr hh
                      subst hr; subst hh
                      exact ⟨tx, fun a b d hcon => nomatch hcon⟩
                  | out =>
                      simp only [hsx] at hstep
                      injection hstep with hr hh
                      subst hr; subst hh
                      exact ⟨tx, fun a b d hcon => nomatch hcon⟩
      | Eqs a b d =>
          simp only [stepF, eqGo] at hstep
          cases hax : reduceTop fuel a [] { weak := true, holes := h, depth := d } with
          | err e1 =>
              simp only [hax] at hstep
              injection hstep with hr hh; subst hr; subst hh
              exact ⟨HoleTrans_refl h, fun _ _ _ _ => ⟨"", fun m _ => rfl⟩⟩
          | out =>
              simp only [hax] at hstep
              injection hstep with hr hh; subst hr; subst hh
              exact ⟨HoleTrans_refl h, fun _ _ _ _ => ⟨"", fun m _ => rfl⟩⟩
          | ok ax =>
          simp only [hax] at hstep
          cases hbx : reduceTop fuel b [] { weak := true, holes := h, depth := d } with
          | err e1 =>
              simp only [hbx] at hstep
              injection hstep with hr hh; subst hr; subst hh
              exact ⟨HoleTrans_refl h, fun _ _ _ _ => ⟨"", fun m _ => rfl⟩⟩
          | out =>
              simp only [hbx] at hstep
              injection hstep with hr hh; subst hr; subst hh
              exact ⟨HoleTrans_refl h, fun _ _ _ _ => ⟨"", fun m _ => rfl⟩⟩
          | ok bx =>
          simp only [hbx] at hstep
          cases hay : reduceTop fuel a defs { weak := true, holes := h, depth := d } with
          | err e1 =>
              simp only [hay] at hstep
              injection hstep with hr hh; subst hr; subst hh
              exact ⟨HoleTrans_refl h, fun _ _ _ _ => ⟨"", fun m _ => rfl⟩⟩
          | out =>
              simp only [hay] at hstep
              injection hstep with hr hh; subst hr; subst hh
              exact ⟨HoleTrans_refl h, fun _ _ _ _ => ⟨"", fun m _ => rfl⟩⟩
          | ok ay =>
          simp only [hay] at hstep
          cases hby : reduceTop fuel b defs { weak := true, holes := h, depth := d } with
          | err e1 =>
              simp only [hby] at hstep
              injection hstep with hr hh; subst hr; subst hh
              exact ⟨HoleTrans_refl h, fun _ _ _ _ => ⟨"", fun m _ => rfl⟩⟩
          | out =>
              simp only [hby] at hstep
              injection hstep with hr hh; subst hr; subst hh
              exact ⟨HoleTrans_refl h, fun _ _ _ _ => ⟨"", fun m _ => rfl⟩⟩
          | ok b_y =>
          simp only [hby] at hstep
          by_cases hhash : (hash a == hash b || hash ax == hash bx || hash ay == hash b_y) = true
          · rw [if_pos hhash] at hstep
            injection hstep with hr hh; subst hr; subst hh
            exact ⟨HoleTrans_refl h, fun _ _ _ _ => ⟨"", fun m _ => rfl⟩⟩
          · rw [if_neg hhash] at hstep
            by_cases href : refEq ax bx = true
            · rw [if_pos href] at hstep
              injection hstep with hr hh; subst hr; subst hh
              exact ⟨HoleTrans_refl h, fun _ _ _ _ => ⟨"", fun m _ => rfl⟩⟩
            · rw [if_neg href] at hstep
              cases hpk : holePick ax bx with
              | none =>
                  simp only [hpk] at hstep
                  split at hstep <;>
                    (injection hstep with hr hh; subst hr; subst hh;
                     exact ⟨HoleTrans_refl h, fun _ _ _ _ => ⟨"", fun m _ => rfl⟩⟩)
              | some pr =>
                  obtain ⟨hname, expr⟩ := pr
                  simp only [hpk] at hstep
                  cases hl : lookupH h hname with
                  | none =>
                      simp only [hl] at hstep
                      injection hstep with hr hh; subst hr; subst hh
                      exact ⟨HoleTrans_refl h, fun _ _ _ _ => ⟨"", fun m _ => rfl⟩⟩
                  | some entry =>
                      simp only [hl] at hstep
                      cases hv : entry.value with
                      | none =>
                          simp only [hv] at hstep
                          injection hstep with hr hh; subst hr; subst hh
                          constructor
                          · intro name
                            by_cases hnm : name = hname
                            · subst hnm
                              exact Or.inr ⟨entry, shift expr (entry.depth - d) 0, hl, hv,
                                lookupH_setH_self h name entry _ hl⟩
                            · exact Or.inl (lookupH_setH_other h hname name _ hnm)
                          · intro a' b' d' _
                            exact ⟨hname, fun m hm => lookupH_setH_other h hname m _ hm⟩
                      | some ov =>
                          cases ov with
                          | none =>
                              simp only [hv] at hstep
                              injection hstep with hr hh; subst hr; subst hh
                              exact ⟨HoleTrans_refl h, fun _ _ _ _ => ⟨"", fun m _ => rfl⟩⟩
                          | some hole_v =>
                              exfalso
                              rcases holePick_hol hpk with h1 | h1
                              · rw [h1] at hax
                                rcases reduceTop_hol rfl hax entry hl with hc | hc <;>
                                  (rw [hv] at hc; simp at hc)
                              · rw [h1] at hbx
                                rcases reduceTop_hol rfl hbx entry hl with hc | hc <;>
                                  (rw [hv] at hc; simp at hc)

/-- Witness for C6 at a concrete step: processing the unset hole `A` against
`Val 1` assigns it and leaves every other entry untouched. -/
theorem equal_hole_monotone_witness :
    HoleTrans [("A", ⟨0, none⟩)] [("A", ⟨0, some (some (.Val 1))⟩)] :=
  (equal_hole_monotone 5 [] (.Eqs (.Hol "A") (.Val 1) 0) [("A", ⟨0, none⟩)]
    (.ok (.Bop true (.Val true) (.Val false))) [("A", ⟨0, some (some (.Val 1))⟩)] rfl).1

/-! ## The bidirectional type checker

The inner `typecheck(term, expect, ctx, erased)` (source lines 981-1203).
JS mutations are made explicit: each call returns the possibly updated term
(`Ann.done` flags are the only term mutations) together with the session
state `St` (the `holes` registry, the `types` cache, and `defs`, which the
`Ref` case rewrites).  A thrown exception carries the state and the term as
mutated at throw time, as in JS. -/

/-- A typing context (source lines 883-906): `ctx_new = { length: 0 }` plus
`ctx_ext` frames. -/
inductive Ctx where
  | new
  | ext (name : String) (term : Option Term) (type : Term) (eras : Bool) (rest : Ctx)

def lengthC : Ctx → Nat
  | .new => 0
  | .ext _ _ _ _ rest => lengthC rest + 1

/-- Outcome of `ctx_get` (source lines 887-906).  Against the empty context
JS misbehaves: index 0 builds a frame out of `undefined` fields — name
`undefined`, term `Var i`, type `shift(undefined) = null`, eras `undefined`
— while index ≥ 1 reads `.length` of `undefined` and throws a TypeError. -/
inductive CtxGot where
  | null
  | got (name : Option String) (term : Term) (type : Option Term) (eras : Bool)
  | jsThrow

def ctx_get_go (i : Int) : Nat → Ctx → CtxGot
  | 0, .new => .got none (.Var i) none false
  | 0, .ext name term type eras _ =>
      .got (some name) (match term with | some t => shift t (i + 1) 0 | none => .Var i)
        (some (shift type (i + 1) 0)) eras
  | _ + 1, .new => .jsThrow
  | k + 1, .ext _ _ _ _ rest => if lengthC rest = 0 then .null else ctx_get_go i k rest

def ctx_get (i : Int) (ctx : Ctx) : CtxGot :=
  if i < 0 then .null else ctx_get_go i i.toNat ctx

/-- Session state of one `typecheck` call (source lines 939-943): the hole
registry, the `types` cache, and the definition map (rewritten by `Ref`). -/
structure St where
  holes : Holes
  types : List (String × Term)
  defs : Defs

/-- The type checker's result: outcome (the inferred type, which JS can
leave `null` through the empty-context `Var` path), the updated term, and
the updated state. -/
abbrev TCOut := (Res (Option Term)) × Term × St

/-- `weak_normal` (source lines 944-946). -/
def weakNormal (fuel : Nat) (t : Term) (depth : Nat) (st : St) : Res Term :=
  reduceTop fuel t st.defs { weak := true, holes := st.holes, depth := Int.ofNat depth }

/-- `weak_normal` applied to a nullable type: `reduce(null)` throws. -/
def weakNormalOpt (fuel : Nat) (t : Option Term) (depth : Nat) (st : St) : Res Term :=
  match t with
  | none => .err .jsError
  | some tt => weakNormal fuel tt depth st

/-- `subst_holes` (source lines 950-962): hole substitution only, with
beta/delta/numeric/use/ann reduction disabled. -/
def substHoles (fuel : Nat) (t : Term) (depth : Int) (st : St) : Res Term :=
  reduceTop fuel t []
    { weak := false, no_app := true, no_ref := true, no_op1 := true, no_op2 := true,
      no_use := true, no_ann := true, holes := st.holes, depth := depth }

/-- Normalization of a provided expected type (source lines 1013-1016). -/
def expectNf (fuel : Nat) (expect : Option Term) (depth : Nat) (st : St) :
    Res (Option Term) :=
  match expect with
  | none => .ok none
  | some e =>
      match weakNormal fuel e depth st with
      | .ok t => .ok (some t)
      | .err er => .err er
      | .out => .out

/-- `do_match` (source lines 1004-1012): definitional equality of the found
type against the expected one; `equal(null, …)` erases `null` and throws. -/
def doMatch (fuel : Nat) (type : Option Term) (expect : Option Term) (depth : Nat)
    (st : St) : (Res Unit) × St :=
  match expect with
  | none => (.ok (), st)
  | some ex =>
      match type with
      | none => (.err .jsError, st)
      | some ty =>
          match equalF fuel ty ex (Int.ofNat depth) st.defs st.holes with
          | (.ok true, h) => (.ok (), { st with holes := h })
          | (.ok false, h) => (.err .typeMismatch, { st with holes := h })
          | (.err er, h) => (.err er, { st with holes := h })
          | (.out, h) => (.out, { st with holes := h })

/-- `register_hole` (source lines 970-979); the reporting-only `error` and
`local` fields are dropped. -/
def registerHole (name : String) (depth : Nat) (st : St) : St :=
  match lookupH st.holes name with
  | some _ => st
  | none => { st with holes := st.holes ++ [(name, ⟨Int.ofNat depth, none⟩)] }

/-- JS tag test `t[0] === "Typ"`. -/
def isTypTag : Term → Bool
  | .Typ => true
  | _ => false

/-- JS tag test `t[0] === "Num"`. -/
def isNumTag : Term → Bool
  | .Num => true
  | _ => false

/-- JS tag test `t[0] === "All"` with field projections. -/
def allOf? : Term → Option (String × Term × Term × Bool)
  | .All n b c e => some (n, b, c, e)
  | _ => none

/-- JS tag test `t[0] === "Slf"` with field projections. -/
def slfOf? : Term → Option (String × Term)
  | .Slf n t => some (n, t)
  | _ => none

/-- The inner `typecheck` (source lines 981-1203), one fuel unit per
recursive call.  Each constructor case mirrors the source's rule; the final
`doMatch` is the `if (expect) do_match(type, expect)` epilogue at source
lines 1199-1201, skipped when the case threw.  Terms are trees here, so the
in-place `Ann.done` mutations of `defs[name]` become visible to other
readers when the `Ref` sub-check returns rather than instantaneously. -/
def typecheckF : Nat → Term → Option Term → Ctx → Bool → St → TCOut
  | 0, term, _, _, _, st => (.out, term, st)
  | fuel + 1, term, expect, ctx, erased, st =>
    match expectNf fuel expect (lengthC ctx) st with
    | .err er => (.err er, term, st)
    | .out => (.out, term, st)
    | .ok expect_nf =>
      let main : TCOut :=
        match term with
        | .Var i =>
            match ctx_get i ctx with
            | .jsThrow => (.err .jsError, .Var i, st)
            | .null => (.err .unboundVariable, .Var i, st)
            | .got _ _ gtype geras =>
                if geras && !erased then (.err .erasedUse, .Var i, st)
                else (.ok gtype, .Var i, st)
        | .Typ => (.ok (some .Typ), .Typ, st)
        | .All name bind body eras =>
            if (match expect_nf with | some enf => !isTypTag enf | none => false) then
              (.err .forallNotType, .All name bind body eras, st)
            else
              match typecheckF fuel bind (some .Typ) ctx true st with
              | (.ok _, bind2, st1) =>
                  match typecheckF fuel body (some .Typ) (.ext name none bind2 eras ctx) true st1 with
                  | (.ok _, body2, st2) => (.ok (some .Typ), .All name bind2 body2 eras, st2)
                  | (.err er, body2, st2) => (.err er, .All name bind2 body2 eras, st2)
                  | (.out, body2, st2) => (.out, .All name bind2 body2 eras, st2)
              | (.err er, bind2, st1) => (.err er, .All name bind2 body eras, st1)
              | (.out, bind2, st1) => (.out, .All name bind2 body eras, st1)
        | .Lam name bind body eras =>
            match (match expect_nf with | some enf => allOf? enf | none => none) with
            | some (_, ebind, ebody, _) =>
                match typecheckF fuel ebind (some .Typ) ctx true st with
                | (.ok _, ebind2, st1) =>
                    match typecheckF fuel body (some ebody) (.ext name none ebind2 eras ctx) erased st1 with
                    | (.ok body_t, body2, st2) =>
                        match body_t with
                        | none => (.err .jsError, .Lam name bind body2 eras, st2)
                        | some bt =>
                            match typecheckF fuel bt (some .Typ) (.ext name none ebind2 eras ctx) true st2 with
                            | (.ok _, bt2, st3) =>
                                (.ok (some (.All name ebind2 bt2 eras)), .Lam name bind body2 eras, st3)
                            | (.err er, _, st3) => (.err er, .Lam name bind body2 eras, st3)
                            | (.out, _, st3) => (.out, .Lam name bind body2 eras, st3)
                    | (.err er, body2, st2) => (.err er, .Lam name bind body2 eras, st2)
                    | (.out, body2, st2) => (.out, .Lam name bind body2 eras, st2)
                | (.err er, _, st1) => (.err er, .Lam name bind body eras, st1)
                | (.out, _, st1) => (.out, .Lam name bind body eras, st1)
            | none =>
                match bind with
                | none =>
                    match expect_nf with
                    | none => (.err .cantInferLam, .Lam name bind body eras, st)
                    | some _ => (.err .lamNotForall, .Lam name bind body eras, st)
                | some b =>
                    match typecheckF fuel b (some .Typ) ctx true st with
                    | (.ok _, b2, st1) =>
                        match typecheckF fuel body none (.ext name none b2 eras ctx) erased st1 with
                        | (.ok body_t, body2, st2) =>
                            match body_t with
                            | none => (.err .jsError, .Lam name (some b2) body2 eras, st2)
                            | some bt =>
                                match typecheckF fuel bt (some .Typ) (.ext name none b2 eras ctx) true st2 with
                                | (.ok _, bt2, st3) =>
                                    (.ok (some (.All name b2 bt2 eras)), .Lam name (some b2) body2 eras, st3)
                                | (.err er, _, st3) => (.err er, .Lam name (some b2) body2 eras, st3)
                                | (.out, _, st3) => (.out, .Lam name (some b2) body2 eras, st3)
                        | (.err er, body2, st2) => (.err er, .Lam name (some b2) body2 eras, st2)
                        | (.out, body2, st2) => (.out, .Lam name (some b2) body2 eras, st2)
                    | (.err er, b2, st1) => (.err er, .Lam name (some b2) body eras, st1)
                    | (.out, b2, st1) => (.out, .Lam name (some b2) body eras, st1)
        | .App func argm eras =>
            match typecheckF fuel func none ctx erased st with
            | (.ok func_t, func2, st1) =>
                match weakNormalOpt fuel func_t (lengthC ctx) st1 with
                | .ok func_tw =>
                    match allOf? func_tw with
                    | none => (.err .nonFunction, .App func2 argm eras, st1)
                    | some (_, fbind, fbody, feras) =>
                        match typecheckF fuel argm (some fbind) ctx (eras || erased) st1 with
                        | (.ok _, argm2, st2) =>
                            if feras != eras then
                              (.err .mismatchedErasure, .App func2 argm2 eras, st2)
                            else
                              (.ok (some (subst fbody (.Ann fbind argm2 false) 0)),
                               .App func2 argm2 eras, st2)
                        | (.err er, argm2, st2) => (.err er, .App func2 argm2 eras, st2)
                        | (.out, argm2, st2) => (.out, .App func2 argm2 eras, st2)
                | .err er => (.err er, .App func2 argm eras, st1)
                | .out => (.out, .App func2 argm eras, st1)
            | (.err er, func2, st1) => (.err er, .App func2 argm eras, st1)
            | (.out, func2, st1) => (.out, .App func2 argm eras, st1)
        | .Num => (.ok (some .Typ), .Num, st)
        | .Val n => (.ok (some .Num), .Val n, st)
        | .Op1 f num0 num1 =>
            match typecheckF fuel num0 (some .Num) ctx erased st with
            | (.ok _, num02, st1) =>
                match typecheckF fuel num1 (some .Num) ctx erased st1 with
                | (.ok _, num12, st2) => (.ok (some .Num), .Op1 f num02 num12, st2)
                | (.err er, num12, st2) => (.err er, .Op1 f num02 num12, st2)
                | (.out, num12, st2) => (.out, .Op1 f num02 num12, st2)
            | (.err er, num02, st1) => (.err er, .Op1 f num02 num1, st1)
            | (.out, num02, st1) => (.out, .Op1 f num02 num1, st1)
        | .Op2 f num0 num1 =>
            match typecheckF fuel num0 (some .Num) ctx erased st with
            | (.ok _, num02, st1) =>
                match typecheckF fuel num1 (some .Num) ctx erased st1 with
                | (.ok _, num12, st2) => (.ok (some .Num), .Op2 f num02 num12, st2)
                | (.err er, num12, st2) => (.err er, .Op2 f num02 num12, st2)
                | (.out, num12, st2) => (.out, .Op2 f num02 num12, st2)
            | (.err er, num02, st1) => (.err er, .Op2 f num02 num1, st1)
            | (.out, num02, st1) => (.out, .Op2 f num02 num1, st1)
        | .Ite cond if_t if_f =>
            match typecheckF fuel cond none ctx erased st with
            | (.ok cond_t, cond2, st1) =>
                match weakNormalOpt fuel cond_t (lengthC ctx) st1 with
                | .ok cond_tw =>
                    if !isNumTag cond_tw then (.err .ifCondNotNum, .Ite cond2 if_t if_f, st1)
                    else
                      match typecheckF fuel if_t expect_nf ctx erased st1 with
                      | (.ok if_t_t, if_t2, st2) =>
                          match typecheckF fuel if_f if_t_t ctx erased st2 with
                          | (.ok _, if_f2, st3) =>
                              (.ok (match expect_nf with | some e => some e | none => if_t_t),
                               .Ite cond2 if_t2 if_f2, st3)
                          | (.err er, if_f2, st3) => (.err er, .Ite cond2 if_t2 if_f2, st3)
                          | (.out, if_f2, st3) => (.out, .Ite cond2 if_t2 if_f2, st3)
                      | (.err er, if_t2, st2) => (.err er, .Ite cond2 if_t2 if_f, st2)
                      | (.out, if_t2, st2) => (.out, .Ite cond2 if_t2 if_f, st2)
                | .err er => (.err er, .Ite cond2 if_t if_f, st1)
                | .out => (.out, .Ite cond2 if_t if_f, st1)
            | (.err er, cond2, st1) => (.err er, .Ite cond2 if_t if_f, st1)
            | (.out, cond2, st1) => (.out, .Ite cond2 if_t if_f, st1)
        | .Slf name type =>
            match typecheckF fuel type (some .Typ) (.ext name none (.Slf name type) false ctx) true st with
            | (.ok _, type2, st1) => (.ok (some .Typ), .Slf name type2, st1)
            | (.err er, type2, st1) => (.err er, .Slf name type2, st1)
            | (.out, type2, st1) => (.out, .Slf name type2, st1)
        | .New type expr =>
            match weakNormal fuel type (lengthC ctx) st with
            | .ok ttyp =>
                match slfOf? ttyp with
                | none => (.err .newNotSelf, .New type expr, st)
                | some _ =>
                    match typecheckF fuel ttyp none ctx true st with
                    | (.ok _, ttyp2, st1) =>
                        -- checking `ttyp` mutates it in place; JS then reads its body:
                        -- the updated term keeps the Slf head, so the inner arm is the
                        -- live one
                        match slfOf? ttyp2 with
                        | none => (.err .jsError, .New type expr, st1)
                        | some (_, sbody2) =>
                            match typecheckF fuel expr
                                (some (subst sbody2 (.Ann ttyp2 (.New type expr) true) 0)) ctx erased st1 with
                            | (.ok _, expr2, st2) => (.ok (some type), .New type expr2, st2)
                            | (.err er, expr2, st2) => (.err er, .New type expr2, st2)
                            | (.out, expr2, st2) => (.out, .New type expr2, st2)
                    | (.err er, _, st1) => (.err er, .New type expr, st1)
                    | (.out, _, st1) => (.out, .New type expr, st1)
            | .err er => (.err er, .New type expr, st)
            | .out => (.out, .New type expr, st)
        | .Use expr =>
            match typecheckF fuel expr none ctx erased st with
            | (.ok expr_t, expr2, st1) =>
                match weakNormalOpt fuel expr_t (lengthC ctx) st1 with
                | .ok expr_tw =>
                    match slfOf? expr_tw with
                    | none => (.err .useNotSelf, .Use expr2, st1)
                    | some (_, sbody) => (.ok (some (subst sbody expr2 0)), .Use expr2, st1)
                | .err er => (.err er, .Use expr2, st1)
                | .out => (.out, .Use expr2, st1)
            | (.err er, expr2, st1) => (.err er, .Use expr2, st1)
            | (.out, expr2, st1) => (.out, .Use expr2, st1)
        | .Ann ty ex done =>
            if done then (.ok (some ty), .Ann ty ex done, st)
            else
              match typecheckF fuel ty (some .Typ) ctx true st with
              | (.ok _, ty2, st1) =>
                  match typecheckF fuel ex (some ty2) ctx erased st1 with
                  | (.ok _, ex2, st2) => (.ok (some ty2), .Ann ty2 ex2 true, st2)
                  | (.err er, ex2, st2) => (.err er, .Ann ty2 ex2 false, st2)
                  | (.out, ex2, st2) => (.out, .Ann ty2 ex2 false, st2)
              | (.err er, ty2, st1) => (.err er, .Ann ty2 ex false, st1)
              | (.out, ty2, st1) => (.out, .Ann ty2 ex false, st1)
        | .Log msge expr =>
            match typecheckF fuel msge none ctx true st with
            | (.out, msge2, st1) => (.out, .Log msge2 expr, st1)
            | (_, msge2, st1) =>
                match typecheckF fuel expr expect ctx erased st1 with
                | (r, expr2, st2) => (r, .Log msge2 expr2, st2)
        | .Hol name =>
            (.ok (match expect with | some e => some e | none => some (.Hol (name ++ "_type"))),
             .Hol name, registerHole name (lengthC ctx) st)
        | .Ref name eras =>
            match lookupD st.defs name with
            | none => (.err (.undefinedReference name), .Ref name eras, st)
            | some dterm =>
                match lookupD st.types name with
                | some cached => (.ok (some cached), .Ref name eras, st)
                | none =>
                    match typecheckF fuel dterm none .new erased st with
                    | (.ok dref_t, dterm2, stA) =>
                        let st1 : St := { stA with defs := setD stA.defs name dterm2 }
                        match lookupD st1.types name with
                        | some cached2 => (.ok (some cached2), .Ref name eras, st1)
                        | none =>
                            match dref_t with
                            | none => (.err .jsError, .Ref name eras, st1)
                            | some dt =>
                                match substHoles fuel dt 0 st1 with
                                | .ok dt2 =>
                                    match substHoles fuel dterm2 0 st1 with
                                    | .ok newDef =>
                                        (.ok (some dt2), .Ref name eras,
                                         { st1 with
                                           defs := setD st1.defs name
                                             (match newDef with
                                              | .Ann t e _ => .Ann t e true
                                              | other => .Ann dt2 other true),
                                           types := st1.types ++ [(name, dt2)] })
                                    | .err er => (.err er, .Ref name eras, st1)
                                    | .out => (.out, .Ref name eras, st1)
                                | .err er => (.err er, .Ref name eras, st1)
                                | .out => (.out, .Ref name eras, st1)
                    | (.err er, dterm2, stA) =>
                        (.err er, .Ref name eras, { stA with defs := setD stA.defs name dterm2 })
                    | (.out, dterm2, stA) =>
                        (.out, .Ref name eras, { stA with defs := setD stA.defs name dterm2 })
      match main with
      | (.ok type, t2, st2) =>
          match doMatch fuel type expect (lengthC ctx) st2 with
          | (.ok _, st3) => (.ok type, t2, st3)
          | (.err er, st3) => (.err er, t2, st3)
          | (.out, st3) => (.out, t2, st3)
      | other => other

/-! ## Linearity analysis -/

/-- `uses(term, depth)` (source lines 1250-1288): counts the occurrences of
`Var depth`, raising the depth under `Lam`; erased application arguments
contribute zero; constructors without a listed case (including `All`, `Slf`,
`Ref`) contribute zero. -/
def uses : Term → Int → Nat
  | .Var i, depth => if i = depth then 1 else 0
  | .Lam _ _ body _, depth => uses body (depth + 1)
  | .App func argm eras, depth => uses func depth + (if eras then 0 else uses argm depth)
  | .Op1 _ num0 num1, depth => uses num0 depth + uses num1 depth
  | .Op2 _ num0 num1, depth => uses num0 depth + uses num1 depth
  | .Ite cond if_t if_f, depth => uses cond depth + uses if_t depth + uses if_f depth
  | .New _ expr, depth => uses expr depth
  | .Use expr, depth => uses expr depth
  | .Ann _ expr _, depth => uses expr depth
  | .Log _ expr, depth => uses expr depth
  | _, _ => 0

/-- `is_affine(term, defs, seen)` (source lines 1290-1338).  Note the `Ite`
case (source lines 1310-1314): both `if_t` and `if_f` are computed from
`term[1].if_t`; the else-branch is never examined.  A `Ref` to a missing
definition throws a TypeError (`undefined[0]`). -/
def is_affineF : Nat → Term → Defs → List String → Res Bool
  | 0, _, _, _ => .out
  | fuel + 1, t, defs, seen =>
    match t with
    | .Lam _ _ body _ =>
        match is_affineF fuel body defs seen with
        | .ok b => .ok (decide (uses body 0 ≤ 1) && b)
        | e => e
    | .App func argm eras =>
        match is_affineF fuel func defs seen with
        | .ok fb =>
            if eras then .ok (fb && true)
            else
              match is_affineF fuel argm defs seen with
              | .ok ab => .ok (fb && ab)
              | e => e
        | e => e
    | .Op1 _ num0 num1 =>
        match is_affineF fuel num0 defs seen with
        | .ok b0 =>
            match is_affineF fuel num1 defs seen with
            | .ok b1 => .ok (b0 && b1)
            | e => e
        | e => e
    | .Op2 _ num0 num1 =>
        match is_affineF fuel num0 defs seen with
        | .ok b0 =>
            match is_affineF fuel num1 defs seen with
            | .ok b1 => .ok (b0 && b1)
            | e => e
        | e => e
    | .Ite cond if_t _ =>
        match is_affineF fuel cond defs seen with
        | .ok bc =>
            match is_affineF fuel if_t defs seen with
            | .ok bt =>
                match is_affineF fuel if_t defs seen with
                | .ok bf => .ok (bc && bt && bf)
                | e => e
            | e => e
        | e => e
    | .New _ expr =>
        match is_affineF fuel expr defs seen with
        | .ok b => .ok b
        | e => e
    | .Use expr =>
        match is_affineF fuel expr defs seen with
        | .ok b => .ok b
        | e => e
    | .Ann _ expr _ =>
        match is_affineF fuel expr defs seen with
        | .ok b => .ok b
        | e => e
    | .Log _ expr =>
        match is_affineF fuel expr defs seen with
        | .ok b => .ok b
        | e => e
    | .Ref name _ =>
        if seen.contains name then .ok true
        else
          match lookupD defs name with
          | some t2 => is_affineF fuel t2 defs (name :: seen)
          | none => .err .jsError
    | _ => .ok true

/-- Reachability of a `Lam`, formalizing the claim's traversal: descend
through the term structure, including both branches of every `Ite`, without
crossing an erased application argument.  (Following `Ref`s into `defs` is
omitted as the counterexample uses none; a Lam reachable in this
sub-relation is reachable in the claim's larger relation.) -/
inductive ReachesLam : Term → Term → Prop where
  | here (name : String) (bind : Option Term) (body : Term) (eras : Bool) :
      ReachesLam (.Lam name bind body eras) (.Lam name bind body eras)
  | lam_body {body lam : Term} (name : String) (bind : Option Term) (eras : Bool) :
      ReachesLam body lam → ReachesLam (.Lam name bind body eras) lam
  | app_func {func lam : Term} (argm : Term) (eras : Bool) :
      ReachesLam func lam → ReachesLam (.App func argm eras) lam
  | app_argm {argm lam : Term} (func : Term) :
      ReachesLam argm lam → ReachesLam (.App func argm false) lam
  | op1_left {num0 lam : Term} (func : String) (num1 : Term) :
      ReachesLam num0 lam → ReachesLam (.Op1 func num0 num1) lam
  | op1_right {num1 lam : Term} (func : String) (num0 : Term) :
      ReachesLam num1 lam → ReachesLam (.Op1 func num0 num1) lam
  | op2_left {num0 lam : Term} (func : String) (num1 : Term) :
      ReachesLam num0 lam → ReachesLam (.Op2 func num0 num1) lam
  | op2_right {num1 lam : Term} (func : String) (num0 : Term) :
      ReachesLam num1 lam → ReachesLam (.Op2 func num0 num1) lam
  | ite_cond {cond lam : Term} (if_t if_f : Term) :
      ReachesLam cond lam → ReachesLam (.Ite cond if_t if_f) lam
  | ite_t {if_t lam : Term} (cond if_f : Term) :
      ReachesLam if_t lam → ReachesLam (.Ite cond if_t if_f) lam
  | ite_f {if_f lam : Term} (cond if_t : Term) :
      ReachesLam if_f lam → ReachesLam (.Ite cond if_t if_f) lam
  | new_expr {expr lam : Term} (type : Term) :
      ReachesLam expr lam → ReachesLam (.New type expr) lam
  | use_expr {expr lam : Term} :
      ReachesLam expr lam → ReachesLam (.Use expr) lam
  | ann_expr {expr lam : Term} (type : Term) (done : Bool) :
      ReachesLam expr lam → ReachesLam (.Ann type expr done) lam
  | log_expr {expr lam : Term} (msge : Term) :
      ReachesLam expr lam → ReachesLam (.Log msge expr) lam

/-- C7: `is_affine` misses non-affine lambdas in the else-branch of an
`Ite`: its `Ite` case analyzes `if_t` twice and never `if_f` (source lines
1310-1314, contrast `is_terminating` at lines 1378-1382).  On
`Ite(Val 0, Val 0, λx. x .+. x)` the analysis returns `true` although the
reachable else-branch `Lam` uses its bound variable twice. -/
theorem is_affine_ite_else_cex :
    is_affineF 3 (.Ite (.Val 0) (.Val 0)
        (.Lam "x" none (.Op2 ".+." (.Var 0) (.Var 0)) false)) [] [] = .ok true
    ∧ ReachesLam (.Ite (.Val 0) (.Val 0) (.Lam "x" none (.Op2 ".+." (.Var 0) (.Var 0)) false))
        (.Lam "x" none (.Op2 ".+." (.Var 0) (.Var 0)) false)
    ∧ uses (.Op2 ".+." (.Var 0) (.Var 0)) 0 = 2 := by
  refine ⟨rfl, ?_, rfl⟩
  exact .ite_f _ _ (.here _ _ _ _)

/-! ## C8: unbound variables -/

/-- Walking a context of length at least one for at least that many steps
reaches the `rest.length === 0` guard and yields `null`. -/
theorem ctx_get_go_null : ∀ (ctx : Ctx) (k : Nat) (i : Int),
    1 ≤ lengthC ctx → lengthC ctx ≤ k → ctx_get_go i k ctx = .null
  | .new, _, _, h1, _ => by simp [lengthC] at h1
  | .ext _ _ _ _ rest, k, i, _, h2 => by
      have h2' : lengthC rest + 1 ≤ k := by simpa [lengthC] using h2
      obtain ⟨k', rfl⟩ : ∃ k', k = k' + 1 := ⟨k - 1, by omega⟩
      by_cases hr : lengthC rest = 0
      · simp [ctx_get_go, hr]
      · simp only [ctx_get_go, hr, if_false]
        exact ctx_get_go_null rest k' i (by omega) (by omega)

/-- A negative index, or an index at or past the frames of a nonempty
context, makes `ctx_get` return `null`. -/
theorem ctx_get_null_of_unbound (i : Int) (ctx : Ctx)
    (h : i < 0 ∨ (1 ≤ lengthC ctx ∧ (lengthC ctx : Int) ≤ i)) :
    ctx_get i ctx = .null := by
  unfold ctx_get
  rcases h with h | ⟨h1, h2⟩
  · simp [h]
  · have hni : ¬ i < 0 := by omega
    simp only [hni, if_false]
    exact ctx_get_go_null ctx i.toNat i h1 (by omega)

/-- Counterexample to C8 as stated: in the empty context, `ctx_get(0, ctx)`
fabricates a frame with a `null` type instead of failing, so type-checking
`Var 0` succeeds with no type, and `ctx_get(1, ctx)` reads `.length` of
`undefined`, so type-checking `Var 1` throws a raw TypeError — neither path
raises the Unbound-variable error. -/
theorem typecheck_var_empty_ctx_cex :
    typecheckF 3 (.Var 0) none .new false ⟨[], [], []⟩
      = (.ok none, .Var 0, ⟨[], [], []⟩)
    ∧ typecheckF 3 (.Var 1) none .new false ⟨[], [], []⟩
      = (.err .jsError, .Var 1, ⟨[], [], []⟩)
    ∧ (Res.ok (none : Option Term) ≠ Res.err .unboundVariable)
    ∧ (Res.err (α := Option Term) .jsError ≠ Res.err .unboundVariable) :=
  ⟨rfl, rfl, by simp, by simp⟩

/-- **C8 (amended).** The Unbound-variable error is raised exactly on the
paths where `ctx_get` returns `null`: a negative index, or an index with no
frame in a *nonempty* context.  In the empty context no index produces it
(see the counterexample). -/
theorem var_unbound (fuel : Nat) (i : Int) (ctx : Ctx) (erased : Bool) (st : St)
    (h : i < 0 ∨ (1 ≤ lengthC ctx ∧ (lengthC ctx : Int) ≤ i)) :
    typecheckF (fuel + 1) (.Var i) none ctx erased st
      = (.err .unboundVariable, .Var i, st) := by
  have hg : ctx_get i ctx = .null := ctx_get_null_of_unbound i ctx h
  simp [typecheckF, expectNf, hg]

/-- Witness for the amended C8 at a concrete input: index 2 in a
one-frame context. -/
theorem var_unbound_witness :
    typecheckF 4 (.Var 2) none (.ext "x" none .Typ false .new) false ⟨[], [], []⟩
      = (.err .unboundVariable, .Var 2, ⟨[], [], []⟩) :=
  var_unbound 3 2 (.ext "x" none .Typ false .new) false ⟨[], [], []⟩
    (Or.inr ⟨by decide, by decide⟩)

/-! ## C5: Ann memoization -/

/-- **C5.** `Ann` memoization on the checker: (1) an exception thrown while
checking the annotation's type leaves `done = false` and rethrows it
unchanged; (2) likewise for an exception thrown while checking the
annotated expression; (3) on success of both sub-checks the term is left
with `done = true`; and (4) a later check of a `done` Ann returns the
cached type directly, whatever the sub-terms are. -/
theorem ann_memoization (fuel : Nat) (ty ex : Term) (expect : Option Term) (ctx : Ctx)
    (erased : Bool) (st : St) (enf : Option Term)
    (hexp : expectNf fuel expect (lengthC ctx) st = .ok enf) :
    (∀ er ty2 st1, typecheckF fuel ty (some .Typ) ctx true st = (.err er, ty2, st1) →
      typecheckF (fuel + 1) (.Ann ty ex false) expect ctx erased st
        = (.err er, .Ann ty2 ex false, st1))
    ∧ (∀ r1 ty2 st1 er ex2 st2,
        typecheckF fuel ty (some .Typ) ctx true st = (.ok r1, ty2, st1) →
        typecheckF fuel ex (some ty2) ctx erased st1 = (.err er, ex2, st2) →
        typecheckF (fuel + 1) (.Ann ty ex false) expect ctx erased st
          = (.err er, .Ann ty2 ex2 false, st2))
    ∧ (∀ r1 ty2 st1 r2 ex2 st2,
        typecheckF fuel ty (some .Typ) ctx true st = (.ok r1, ty2, st1) →
        typecheckF fuel ex (some ty2) ctx erased st1 = (.ok r2, ex2, st2) →
        (typecheckF (fuel + 1) (.Ann ty ex false) expect ctx erased st).2.1
          = .Ann ty2 ex2 true)
    ∧ typecheckF (fuel + 1) (.Ann ty ex true) none ctx erased st
        = (.ok (some ty), .Ann ty ex true, st) := by
  refine ⟨?_, ?_, ?_, rfl⟩
  · intro er ty2 st1 h1
    simp [typecheckF, hexp, h1]
  · intro r1 ty2 st1 er ex2 st2 h1 h2
    simp [typecheckF, hexp, h1, h2]
  · intro r1 ty2 st1 r2 ex2 st2 h1 h2
    simp only [typecheckF, hexp, h1, h2]
    rcases h3 : doMatch fuel (some ty2) expect (lengthC ctx) st2 with ⟨_ | er3 | u3, st3⟩ <;>
      simp [h3]

/-- Witness for C5's error-rollback conjunct: annotating an unannotated
identity lambda with `Typ` fails the expression sub-check (a lambda's type
is never `Typ`) and returns the Ann with `done` still `false`. -/
theorem ann_memoization_witness :
    typecheckF 10 (.Ann .Typ (.Lam "x" none (.Var 0) false) false) none .new false
        ⟨[], [], []⟩
      = (.err .lamNotForall, .Ann .Typ (.Lam "x" none (.Var 0) false) false,
         ⟨[], [], []⟩) :=
  (ann_memoization 9 .Typ (.Lam "x" none (.Var 0) false) none .new false
      ⟨[], [], []⟩ none rfl).2.1
    (some .Typ) .Typ ⟨[], [], []⟩ .lamNotForall (.Lam "x" none (.Var 0) false)
    ⟨[], [], []⟩ rfl rfl

end Formality
